import Mathlib

/-!
Shallow embedding of the statistical data-processing core of the surveyed
repository (backend/data_processing/algorithms): the imputation engine
(imputation.py), the outlier engine (outliers.py), the rule-validation engine
(validation.py) and the weight/estimation engine (weights.py).

Tables are modelled column-wise: a pandas DataFrame becomes an index list
(the pandas row labels) together with named columns of cells.  A cell is a
missing marker (NaN/None), a rational number (float values; exact rational
arithmetic stands in for IEEE floats), a boolean (flag columns added by the
engines) or a string.  Transcendental operations of the numeric libraries
(numpy sqrt, scipy stats.t.ppf) are taken as function parameters `sqrtF` and
`tppf`: every theorem about them holds for all instantiations.  The sklearn
KNNImputer call in the imputation engine is an external-library numeric method
and is outside the modelled fragment; theorems about the imputation engine
carry the hypothesis that no config entry uses the `knn` method.
-/

inductive Cell where
  | missingC : Cell
  | numC (q : ℚ) : Cell
  | boolC (b : Bool) : Cell
  | strC (s : String) : Cell
deriving DecidableEq, Repr

structure Table where
  idx : List Nat
  cols : List (String × List Cell)
deriving DecidableEq, Repr

instance : Inhabited Table := ⟨⟨[], []⟩⟩

def Table.colNames (t : Table) : List String := t.cols.map Prod.fst

def Table.getCol (t : Table) (c : String) : Option (List Cell) :=
  (t.cols.find? (fun p => p.1 == c)).map Prod.snd

def Table.getColD (t : Table) (c : String) : List Cell := (t.getCol c).getD []

def Table.hasCol (t : Table) (c : String) : Bool := (t.getCol c).isSome

/-- Assignment `df[c] = cells`: replace the (first) column named `c`, or append
a new column at the end when absent, as pandas column assignment does. -/
def setColAux (c : String) (cs : List Cell) : List (String × List Cell) → List (String × List Cell)
  | [] => [(c, cs)]
  | p :: ps => if p.1 == c then (c, cs) :: ps else p :: setColAux c cs ps

def Table.setCol (t : Table) (c : String) (cs : List Cell) : Table :=
  { t with cols := setColAux c cs t.cols }

def isMissing : Cell → Bool
  | .missingC => true
  | _ => false

/-- `series.isnull().sum()` for one column. -/
def countMissing (cs : List Cell) : Nat := cs.countP isMissing

/-- `df.isnull().sum().sum()`. -/
def totalMissing (t : Table) : Nat := (t.cols.map (fun p => countMissing p.2)).sum

def cellNumOpt : Cell → Option ℚ
  | .numC q => some q
  | _ => none

/-- Observed (non-missing) numeric values of a column: `series.dropna()`. -/
def numsOf (cs : List Cell) : List ℚ := cs.filterMap cellNumOpt

/-- `pd.api.types.is_numeric_dtype` for a column of the modelled fragment:
every cell is a number or a missing marker (a float column). -/
def isNumericCells (cs : List Cell) : Bool :=
  cs.all (fun c => match c with
    | .missingC => true
    | .numC _ => true
    | _ => false)

/-- Boolean-mask row filtering `df[keep]`, with the mask given as a predicate
on the pandas row labels (pandas aligns the mask on the index). -/
def Table.filterRows (t : Table) (keep : Nat → Bool) : Table :=
  { idx := t.idx.filter keep,
    cols := t.cols.map (fun p =>
      (p.1, (t.idx.zip p.2).filterMap (fun iq => if keep iq.1 then some iq.2 else none))) }

/-- Value of a label-indexed boolean Series at label `l` (false off-index). -/
def maskAt (labels : List Nat) (mask : List Bool) (l : Nat) : Bool :=
  (((labels.zip mask).find? (fun p => p.1 == l)).map Prod.snd).getD false

/-! ### Rational helpers for the pandas/numpy reductions -/

def insSorted (q : ℚ) : List ℚ → List ℚ
  | [] => [q]
  | x :: xs => if q ≤ x then q :: x :: xs else x :: insSorted q xs

/-- Ascending sort (the order pandas uses for quantiles and mode). -/
def sortQ (l : List ℚ) : List ℚ := l.foldr insSorted []

/-- Linear-interpolation quantile of an ascending nonempty list, as
`Series.quantile` computes it (position `(m-1)·p`, interpolate between the
neighbouring order statistics). -/
def quantileSorted (vs : List ℚ) (p : ℚ) : ℚ :=
  let h : ℚ := ((vs.length : ℚ) - 1) * p
  let i : Nat := (Rat.floor h).toNat
  match vs.get? i, vs.get? (i + 1) with
  | some a, some b => a + (h - (i : ℚ)) * (b - a)
  | some a, none => a
  | none, _ => 0

/-- `series.quantile(p)`: drop missing values, NaN (none) on an empty sample. -/
def quantileOpt (cs : List Cell) (p : ℚ) : Option ℚ :=
  let s := sortQ (numsOf cs)
  if s.isEmpty then none else some (quantileSorted s p)

/-- `series.mean()`: NaN (none) when no observed values. -/
def meanOpt (cs : List Cell) : Option ℚ :=
  let v := numsOf cs
  if v.isEmpty then none else some (v.sum / (v.length : ℚ))

/-- `series.median()`: interpolated median over observed values. -/
def medianOpt (cs : List Cell) : Option ℚ := quantileOpt cs (1/2)

/-- `series.mode()[0]` over the observed numeric values: the most frequent
value, smallest first on ties (pandas returns the modes sorted ascending);
none when there are no observed values. -/
def modeOpt (cs : List Cell) : Option ℚ :=
  let v := numsOf cs
  (sortQ v.dedup).foldl (fun best x =>
    match best with
    | none => some x
    | some b => if v.count x > v.count b then some x else best) none

/-! ### Imputation engine (imputation.py, `impute_missing_values`) -/

/-- `series.fillna(v)`: fills nothing when the fill value is NaN (none), which
is what `fillna(df[c].mean())` does on an all-missing column. -/
def fillCells (cs : List Cell) (v : Option ℚ) : List Cell :=
  match v with
  | none => cs
  | some q => cs.map (fun c => match c with
      | .missingC => .numC q
      | c => c)

structure ImpRec where
  column : String
  method : String
  missing_count : Nat
  imputed_count : Nat
deriving DecidableEq, Repr

structure ImpStats where
  total_missing_before : Nat
  columns_processed : List ImpRec
  total_missing_after : Nat
  total_imputed : Nat
deriving DecidableEq, Repr

inductive ImpChoice where
  | fill (newCells : List Cell)
  | keep
  | skip
deriving DecidableEq, Repr

/-- The method dispatch of the config loop (lines 54-72), on the original
column `orig` (statistics source) and the running column `cur` of
`df_imputed`: `mean`/`median` fill numeric columns only; `mode` with no mode
value keeps the column but is still recorded (`keep`); any other method —
including the unmodelled external `knn` — is skipped without a record. -/
def imputeChoice (m : String) (orig cur : List Cell) : ImpChoice :=
  if m == "mean" && isNumericCells orig then .fill (fillCells cur (meanOpt orig))
  else if m == "median" && isNumericCells orig then .fill (fillCells cur (medianOpt orig))
  else if m == "mode" then
    match modeOpt orig with
    | some mv => .fill (fillCells cur (some mv))
    | none => .keep
  else .skip

/-- One iteration of the config loop of `impute_missing_values` (lines 41-83).
`df` is the caller's dataframe (used for the column-presence test, the missing
count and the fill statistics, exactly as the source reads `df[column]`); the
state is (df_imputed, columns_processed).  Columns absent from the caller's
frame, columns with no missing values and unsupported methods are skipped;
processed columns append a record whose imputed count is the missing count
minus the missing cells remaining after the fill. -/
def imputeStep (df : Table) (st : Table × List ImpRec) (e : String × String) : Table × List ImpRec :=
  match df.getCol e.1 with
  | none => st
  | some orig =>
    if countMissing orig = 0 then st
    else
      match imputeChoice e.2 orig (st.1.getColD e.1) with
      | .skip => st
      | .keep =>
        (st.1, st.2 ++ [⟨e.1, e.2, countMissing orig,
          countMissing orig - countMissing (st.1.getColD e.1)⟩])
      | .fill cs =>
        (st.1.setCol e.1 cs, st.2 ++ [⟨e.1, e.2, countMissing orig,
          countMissing orig - countMissing ((st.1.setCol e.1 cs).getColD e.1)⟩])

/-- `ImputationEngine.impute_missing_values` over the modelled fragment. -/
def impute_missing_values (df : Table) (cfg : List (String × String)) : Table × ImpStats :=
  let before := totalMissing df
  let r := cfg.foldl (imputeStep df) (df, [])
  let after := totalMissing r.1
  (r.1, ⟨before, r.2, after, before - after⟩)

def sumImputed (recs : List ImpRec) : Nat := (recs.map ImpRec.imputed_count).sum

/-! ### Outlier engine (outliers.py, `detect_outliers`) -/

structure OutCfg where
  method : Option String := none
  action : Option String := none
  iqr_multiplier : Option ℚ := none
  zscore_threshold : Option ℚ := none
  modified_zscore_threshold : Option ℚ := none
  lower_percentile : Option ℚ := none
  upper_percentile : Option ℚ := none
deriving DecidableEq, Repr

/-- `_iqr_outliers`: flag values outside `[Q1 - k·IQR, Q3 + k·IQR]`; the
quantiles skip missing values and missing cells are never flagged
(NaN comparisons are false). -/
def iqrMask (cells : List Cell) (mult : ℚ) : List Bool :=
  let s := sortQ (numsOf cells)
  let q1 := quantileSorted s (1/4)
  let q3 := quantileSorted s (3/4)
  let lo := q1 - mult * (q3 - q1)
  let hi := q3 + mult * (q3 - q1)
  cells.map (fun c => match c with
    | .numC q => decide (q < lo) || decide (q > hi)
    | _ => false)

/-- `_zscore_outliers`: `|zscore(x)| > t` over the observed values, scattered
back over the original index (missing cells never flagged).  scipy's zscore
uses the population variance; a zero variance makes every score NaN, hence no
flags, and the comparison `|z| > t` is rendered exactly over ℚ: for `t < 0` it
holds at every defined score, otherwise it is the squared comparison. -/
def zscoreMask (cells : List Cell) (t : ℚ) : List Bool :=
  let v := numsOf cells
  let m := v.sum / (v.length : ℚ)
  let varP := (v.map (fun x => (x - m) ^ 2)).sum / (v.length : ℚ)
  cells.map (fun c => match c with
    | .numC q =>
      if varP = 0 then false
      else if t < 0 then true
      else decide ((q - m) ^ 2 > t ^ 2 * varP)
    | _ => false)

/-- `_modified_zscore_outliers`: `|0.6745·(x - median)/MAD| > t`; no flags when
the MAD is zero; missing cells give NaN scores and are never flagged. -/
def modifiedZMask (cells : List Cell) (t : ℚ) : List Bool :=
  let v := numsOf cells
  let med := quantileSorted (sortQ v) (1/2)
  let mad := quantileSorted (sortQ (v.map (fun x => |x - med|))) (1/2)
  if mad = 0 then cells.map (fun _ => false)
  else cells.map (fun c => match c with
    | .numC q => decide (|(6745/10000 : ℚ) * (q - med) / mad| > t)
    | _ => false)

/-- `_detect_column_outliers`: all-false on an empty observed sample, then
dispatch on the configured method (default `iqr`); unknown methods flag
nothing. -/
def detectColumnOutliers (cells : List Cell) (cc : OutCfg) : List Bool :=
  if (numsOf cells).isEmpty then cells.map (fun _ => false)
  else
    let m := cc.method.getD "iqr"
    if m == "iqr" then iqrMask cells (cc.iqr_multiplier.getD (3/2))
    else if m == "zscore" then zscoreMask cells (cc.zscore_threshold.getD 3)
    else if m == "modified_zscore" then modifiedZMask cells (cc.modified_zscore_threshold.getD (7/2))
    else cells.map (fun _ => false)

/-- `Series.clip(lower, upper)`: NaN bounds do not clip, missing and
non-numeric cells pass through. -/
def clipCell (lo hi : Option ℚ) (c : Cell) : Cell :=
  match c with
  | .numC q =>
    let q1 := match lo with | some l => max q l | none => q
    let q2 := match hi with | some h => min q1 h | none => q1
    .numC q2
  | c => c

/-- `_winsorize_column`: clip the current column of the processed dataframe to
its configured percentile bounds (defaults 5th/95th). -/
def winsorizeCol (t : Table) (c : String) (cc : OutCfg) : Table :=
  let cur := t.getColD c
  let lo := quantileOpt cur (cc.lower_percentile.getD (1/20))
  let hi := quantileOpt cur (cc.upper_percentile.getD (19/20))
  t.setCol c (cur.map (clipCell lo hi))

structure OutRec where
  column : String
  method : String
  action : String
  outlier_count : Nat
  outlier_percentage : ℚ
deriving DecidableEq, Repr

structure OutStats where
  total_outliers_detected : Nat
  columns_processed : List OutRec
deriving DecidableEq, Repr

/-- One iteration of the config loop of `detect_outliers` (lines 39-77).
Detection always reads the caller's dataframe `df` (the source computes the
mask from `df[column]`), while the action is applied to the running
`df_processed`; the action only fires when at least one row is flagged. -/
def outStep (df : Table) (st : Table × List OutRec × Nat) (e : String × OutCfg) :
    Table × List OutRec × Nat :=
  let t := st.1
  let recs := st.2.1
  let tot := st.2.2
  match df.getCol e.1 with
  | none => (t, recs, tot)
  | some orig =>
    if isNumericCells orig then
      let method := e.2.method.getD "iqr"
      let action := e.2.action.getD "flag"
      let mask := detectColumnOutliers orig e.2
      let cnt := mask.count true
      let t2 :=
        if 0 < cnt then
          if action == "remove" then
            t.filterRows (fun l => !(maskAt df.idx mask l))
          else if action == "winsorize" then
            winsorizeCol t e.1 e.2
          else if action == "flag" then
            t.setCol (e.1 ++ "_outlier_flag") (t.idx.map (fun l => Cell.boolC (maskAt df.idx mask l)))
          else t
        else t
      (t2, recs ++ [⟨e.1, method, action, cnt, (cnt : ℚ) / (df.idx.length : ℚ) * 100⟩], tot + cnt)
    else (t, recs, tot)

/-- `OutlierDetectionEngine.detect_outliers`. -/
def detect_outliers (df : Table) (cfg : List (String × OutCfg)) : Table × OutStats :=
  let r := cfg.foldl (outStep df) (df, [], 0)
  (r.1, ⟨r.2.2, r.2.1⟩)

/-! ### Validation engine (validation.py, `validate_data`)

The format rule's regular expressions and the logical/completeness rules'
`df.eval` expressions are external engines (Python `re`, pandas eval); they are
embedded as small closed ASTs covering the scope the rules use: a classical
regex with characters, alternation, concatenation and star, matched with
Brzozowski derivatives, and a vectorised boolean expression language of
comparisons and boolean connectives over column references and numeric
literals, failing (as `df.eval` raises) when a referenced column is absent. -/

inductive Regex where
  | emp : Regex
  | eps : Regex
  | chr (c : Char) : Regex
  | anyc : Regex
  | alt (r1 r2 : Regex) : Regex
  | cat (r1 r2 : Regex) : Regex
  | star (r : Regex) : Regex
deriving DecidableEq, Repr

def Regex.nullable : Regex → Bool
  | .emp => false
  | .eps => true
  | .chr _ => false
  | .anyc => false
  | .alt a b => a.nullable || b.nullable
  | .cat a b => a.nullable && b.nullable
  | .star _ => true

def Regex.deriv : Regex → Char → Regex
  | .emp, _ => .emp
  | .eps, _ => .emp
  | .chr c, x => if x = c then .eps else .emp
  | .anyc, _ => .eps
  | .alt a b, x => .alt (a.deriv x) (b.deriv x)
  | .cat a b, x => if a.nullable then .alt (.cat (a.deriv x) b) (b.deriv x) else .cat (a.deriv x) b
  | .star r, x => .cat (r.deriv x) (.star r)

def matchList (r : Regex) : List Char → Bool
  | [] => r.nullable
  | c :: cs => matchList (r.deriv c) cs

/-- Whole-string match (`re.fullmatch` semantics). -/
def fullMatch (r : Regex) (s : String) : Bool := matchList r s.data

def matchFrom (r : Regex) : List Char → Bool
  | [] => r.nullable
  | c :: cs => r.nullable || matchFrom (r.deriv c) cs

/-- Match anchored at the start of the string, any prefix may be consumed:
the semantics of Python `re.match`, which `Series.str.match` applies. -/
def startMatch (r : Regex) (s : String) : Bool := matchFrom r s.data

inductive NExpr where
  | col (name : String) : NExpr
  | lit (q : ℚ) : NExpr
deriving DecidableEq, Repr

inductive CmpOp where
  | lt | le | gt | ge | eq | ne
deriving DecidableEq, Repr

inductive BExpr where
  | cmp (op : CmpOp) (a b : NExpr) : BExpr
  | and (a b : BExpr) : BExpr
  | or (a b : BExpr) : BExpr
  | not (a : BExpr) : BExpr
deriving DecidableEq, Repr

/-- Vectorised evaluation of a numeric operand over the dataframe: a column
reference yields the column's per-row values (missing as NaN/none), failing
when the column is absent, exactly the error `df.eval` raises. -/
def evalN (df : Table) : NExpr → Except Unit (List (Option ℚ))
  | .col n =>
    match df.getCol n with
    | some cells => .ok (cells.map cellNumOpt)
    | none => .error ()
  | .lit q => .ok (df.idx.map (fun _ => some q))

/-- Elementwise float comparison with numpy NaN semantics: ordered comparisons
and equality with a NaN operand are false, inequality with a NaN operand is
true. -/
def evalCmp (op : CmpOp) (a b : Option ℚ) : Bool :=
  match op, a, b with
  | .lt, some x, some y => decide (x < y)
  | .le, some x, some y => decide (x ≤ y)
  | .gt, some x, some y => decide (x > y)
  | .ge, some x, some y => decide (x ≥ y)
  | .eq, some x, some y => x == y
  | .ne, some x, some y => !(x == y)
  | .ne, _, _ => true
  | _, _, _ => false

def evalB (df : Table) : BExpr → Except Unit (List Bool)
  | .cmp op a b => do
    let va ← evalN df a
    let vb ← evalN df b
    .ok (List.zipWith (evalCmp op) va vb)
  | .and a b => do
    let va ← evalB df a
    let vb ← evalB df b
    .ok (List.zipWith (fun x y => x && y) va vb)
  | .or a b => do
    let va ← evalB df a
    let vb ← evalB df b
    .ok (List.zipWith (fun x y => x || y) va vb)
  | .not a => do
    let va ← evalB df a
    .ok (va.map (fun x => !x))

instance {ε α : Type} [DecidableEq ε] [DecidableEq α] : DecidableEq (Except ε α) := fun a b =>
  match a, b with
  | .ok x, .ok y =>
    if h : x = y then .isTrue (h ▸ rfl) else .isFalse (fun hc => h (Except.ok.inj hc))
  | .error x, .error y =>
    if h : x = y then .isTrue (h ▸ rfl) else .isFalse (fun hc => h (Except.error.inj hc))
  | .ok _, .error _ => .isFalse (fun hc => Except.noConfusion hc)
  | .error _, .ok _ => .isFalse (fun hc => Except.noConfusion hc)

/-- Rule parameters: one optional field per `params.get` call of the source. -/
structure VParams where
  column : Option String := none
  min_value : Option ℚ := none
  max_value : Option ℚ := none
  pattern : Option Regex := none
  expression : Option BExpr := none
  primary_column : Option String := none
  related_column : Option String := none
  relationship : Option String := none
  condition_column : Option String := none
  condition_value : Option Cell := none
  target_column : Option String := none
  expected_value : Option Cell := none
  required_columns : List String := []
  condition : Option BExpr := none
deriving DecidableEq, Repr

def allFalseRows (df : Table) : List Bool := df.idx.map (fun _ => false)

def cellLtB (c : Cell) (m : ℚ) : Bool :=
  match c with
  | .numC q => decide (q < m)
  | _ => false

def cellGtB (c : Cell) (m : ℚ) : Bool :=
  match c with
  | .numC q => decide (q > m)
  | _ => false

def cellLeB (a b : Cell) : Bool :=
  match a, b with
  | .numC x, .numC y => decide (x ≤ y)
  | _, _ => false

def cellGeB (a b : Cell) : Bool :=
  match a, b with
  | .numC x, .numC y => decide (x ≥ y)
  | _, _ => false

/-- Elementwise pandas `==` against a value: a missing operand is never
equal; values of distinct kinds compare unequal. -/
def cellEqB (a b : Cell) : Bool :=
  match a, b with
  | .numC x, .numC y => x == y
  | .strC s, .strC t => s == t
  | .boolC x, .boolC y => x == y
  | _, _ => false

/-- `_range_check`: start from an all-false series, or in the `< min` test
when a lower bound is configured, or in the `> max` test when an upper bound
is, leaving missing target cells unflagged. -/
def range_check (df : Table) (p : VParams) : List Bool :=
  match p.column with
  | none => allFalseRows df
  | some col =>
    match df.getCol col with
    | none => allFalseRows df
    | some cells =>
      let v0 := cells.map (fun _ => false)
      let v1 :=
        match p.min_value with
        | some mn => List.zipWith (fun b c => b || cellLtB c mn) v0 cells
        | none => v0
      match p.max_value with
      | some mx => List.zipWith (fun b c => b || cellGtB c mx) v1 cells
      | none => v1

/-- `_consistency_check`: rows with either operand missing are exempt, the
stated relationship failing on a valid row is a violation. -/
def consistency_check (df : Table) (p : VParams) : List Bool :=
  match p.primary_column, p.related_column with
  | some pc, some rc =>
    match df.getCol pc, df.getCol rc with
    | some pcs, some rcs =>
      let rel := p.relationship.getD ""
      List.zipWith (fun cp cr =>
        if isMissing cp || isMissing cr then false
        else if rel == "greater_than" then cellLeB cp cr
        else if rel == "less_than" then cellGeB cp cr
        else if rel == "equal" then !(cellEqB cp cr)
        else if rel == "not_equal" then cellEqB cp cr
        else false) pcs rcs
    | _, _ => allFalseRows df
  | _, _ => allFalseRows df

/-- `_skip_pattern_check`: on rows where the condition column equals the
condition value, the target must equal the expected value (or be missing when
no expected value is configured); `!=` against a missing target is true. -/
def skip_pattern_check (df : Table) (p : VParams) : List Bool :=
  match p.condition_column, p.target_column with
  | some cc, some tc =>
    match df.getCol cc, df.getCol tc with
    | some ccs, some tcs =>
      List.zipWith (fun c t =>
        let cond := match p.condition_value with
          | some cv => cellEqB c cv
          | none => false
        if cond then
          match p.expected_value with
          | none => !(isMissing t)
          | some ev => !(cellEqB t ev)
        else false) ccs tcs
    | _, _ => allFalseRows df
  | _, _ => allFalseRows df

/-- `_format_check`: non-missing values in a string column whose string form
does not match the pattern at the start (`Series.str.match`, i.e. `re.match`)
are violations; missing values are exempt.  The Python `str()` conversion is
modelled on string cells (the fragment the format theorems quantify over). -/
def strOfCell : Cell → String
  | .strC s => s
  | _ => ""

def format_check (df : Table) (p : VParams) : List Bool :=
  match p.column, p.pattern with
  | some col, some pat =>
    match df.getCol col with
    | none => allFalseRows df
    | some cells =>
      cells.map (fun c =>
        if isMissing c then false
        else !(startMatch pat (strOfCell c)))
  | _, _ => allFalseRows df

/-- `_logical_check`: violations are the rows where the expression is false;
an evaluation error yields the all-false series (source lines 198-200). -/
def logical_check (df : Table) (p : VParams) : List Bool :=
  match p.expression with
  | none => allFalseRows df
  | some e =>
    match evalB df e with
    | .ok res => res.map (fun b => !b)
    | .error _ => allFalseRows df

/-- `_completeness_check`: under the optional condition (all rows when absent
or when its evaluation errors), every required column present in the table
must be non-missing. -/
def completeness_check (df : Table) (p : VParams) : List Bool :=
  let cond :=
    match p.condition with
    | some e =>
      match evalB df e with
      | .ok l => l
      | .error _ => df.idx.map (fun _ => true)
    | none => df.idx.map (fun _ => true)
  p.required_columns.foldl (fun vAcc col =>
    match df.getCol col with
    | some cells => List.zipWith (fun v (pr : Bool × Cell) => v || (pr.1 && isMissing pr.2)) vAcc (cond.zip cells)
    | none => vAcc) (df.idx.map (fun _ => false))

structure VRule where
  rtype : String
  name : Option String := none
  params : VParams := {}
deriving DecidableEq, Repr

/-- `_apply_validation_rule`: dispatch on the rule-type string; unknown types
produce no violations. -/
def apply_validation_rule (df : Table) (r : VRule) : List Bool :=
  if r.rtype == "range_check" then range_check df r.params
  else if r.rtype == "consistency_check" then consistency_check df r.params
  else if r.rtype == "skip_pattern" then skip_pattern_check df r.params
  else if r.rtype == "format_check" then format_check df r.params
  else if r.rtype == "logical_check" then logical_check df r.params
  else if r.rtype == "completeness_check" then completeness_check df r.params
  else allFalseRows df

structure VRuleRec where
  rule_name : String
  rule_type : String
  violations : Nat
  violation_rate : ℚ
deriving DecidableEq, Repr

structure VStats where
  total_violations : Nat
  rules_applied : List VRuleRec
deriving DecidableEq, Repr

/-- One iteration of the rule loop of `validate_data` (lines 42-66): the rule
is evaluated against the running `df_validated`, and a `<name>_violation`
boolean column is attached only when the violation count is positive. -/
def validateStep (df : Table) (st : Table × List VRuleRec × Nat) (ir : Nat × VRule) : Table × List VRuleRec × Nat :=
  let t := st.1
  let recs := st.2.1
  let tot := st.2.2
  let rname := ir.2.name.getD ("rule_" ++ toString ir.1)
  let viols := apply_validation_rule t ir.2
  let cnt := viols.count true
  let t2 := if 0 < cnt then t.setCol (rname ++ "_violation") (viols.map Cell.boolC) else t
  (t2, recs ++ [⟨rname, ir.2.rtype, cnt, (cnt : ℚ) / (df.idx.length : ℚ) * 100⟩], tot + cnt)

/-- `RuleValidationEngine.validate_data` over the rules list of the config. -/
def validate_data (df : Table) (rules : List VRule) : Table × VStats :=
  let r := rules.enum.foldl (validateStep df) (df, [], 0)
  (r.1, ⟨r.2.2, r.2.1⟩)

/-! ### Weight / estimation engine (weights.py, `apply_weights`)

`np.sqrt` and `scipy.stats.t.ppf` are irrational-valued library functions;
they enter as parameters `sqrtF : ℚ → ℚ` and `tppf : ℚ → ℚ → ℚ` (quantile,
degrees of freedom).  The NaN "undefined" sentinel of the returned estimate
records is `Option.none`, and NaN propagates through the Option arithmetic
helpers below. -/

def osub : Option ℚ → Option ℚ → Option ℚ
  | some a, some b => some (a - b)
  | _, _ => none

def oadd : Option ℚ → Option ℚ → Option ℚ
  | some a, some b => some (a + b)
  | _, _ => none

def omul (t : ℚ) : Option ℚ → Option ℚ := fun x => x.map (fun v => t * v)

/-- `_validate_weights`: missing weights become 1.0, negative weights are
clamped to 0 (`fillna(1.0).clip(lower=0)`; the warnings are not modelled). -/
def cleanWeights (ws : List (Option ℚ)) : List ℚ :=
  ws.map (fun w => max (w.getD 1) 0)

structure Estimate where
  estimate : Option ℚ
  standard_error : Option ℚ
  margin_of_error : Option ℚ
  ci_lower : Option ℚ
  ci_upper : Option ℚ
  confidence_level : Option ℚ
  sample_size : Nat
  effective_sample_size : Option ℚ
deriving DecidableEq, Repr

/-- The zero-valid-sample record of `_calculate_weighted_estimate`
(lines 130-138): every statistic undefined, sizes zero. -/
def zeroWeightedRecord : Estimate :=
  ⟨none, none, none, none, none, none, 0, some 0⟩

/-- The zero-valid-sample record of `_calculate_unweighted_estimate`
(lines 203-210); unweighted records carry no effective sample size. -/
def zeroUnweightedRecord : Estimate :=
  ⟨none, none, none, none, none, none, 0, none⟩

/-- Margin of error and confidence interval of a weighted estimate
(lines 180-196): `t.ppf(1 - alpha/2, df = n_eff - 1)` times the standard
error, interval `estimate ± margin`. -/
def finishWeighted (tppf : ℚ → ℚ → ℚ) (cl effN : ℚ) (n : Nat) (est se : ℚ) : Estimate :=
  let tc := tppf (1 - (1 - cl) / 2) (effN - 1)
  let moe := tc * se
  ⟨some est, some se, some moe, some (est - moe), some (est + moe), some cl, n, some effN⟩

/-- Margin of error and confidence interval of an unweighted estimate
(lines 233-247), degrees of freedom `n - 1`; the standard error may itself be
NaN (single observation), and then the margin and interval are NaN too. -/
def finishUnweighted (tppf : ℚ → ℚ → ℚ) (cl : ℚ) (n : Nat) (est : ℚ) (se : Option ℚ) : Estimate :=
  let tc := tppf (1 - (1 - cl) / 2) ((n : ℚ) - 1)
  let moe := omul tc se
  ⟨some est, se, moe, osub (some est) moe, oadd (some est) moe, some cl, n, none⟩

/-- Rows where both the variable and the weight are present
(`variable.notna() & weights.notna()`), paired up. -/
def validPairs (vs ws : List (Option ℚ)) : List (ℚ × ℚ) :=
  (vs.zip ws).filterMap (fun p =>
    match p.1, p.2 with
    | some x, some w => some (x, w)
    | _, _ => none)

/-- `_calculate_weighted_estimate`.  The `.error` results model the
`ZeroDivisionError` that `np.average` raises when the valid weights sum to
zero (possible after clamping); `n² / Σw²` with an all-zero weight vector is
IEEE infinity in the source and is outside the claims' scope (rational
division by zero yields 0 here). -/
def calcWeightedEstimate (sqrtF : ℚ → ℚ) (tppf : ℚ → ℚ → ℚ)
    (vs ws : List (Option ℚ)) (stat : String) (cl : ℚ) : Except Unit Estimate :=
  let pairs := validPairs vs ws
  let n := pairs.length
  if n = 0 then .ok zeroWeightedRecord
  else
    let wl := pairs.map Prod.snd
    let wsum := wl.sum
    let effN : ℚ := (n : ℚ) ^ 2 / (wl.map (fun w => w ^ 2)).sum
    if stat == "mean" then
      if wsum = 0 then .error ()
      else
        let est := (pairs.map (fun p => p.1 * p.2)).sum / wsum
        let wvar := (pairs.map (fun p => p.2 * (p.1 - est) ^ 2)).sum / wsum
        .ok (finishWeighted tppf cl effN n est (sqrtF (wvar / effN)))
    else if stat == "total" then
      if wsum = 0 then .error ()
      else
        let m := (pairs.map (fun p => p.1 * p.2)).sum / wsum
        let est := (pairs.map (fun p => p.1 * p.2)).sum
        let wvar := (pairs.map (fun p => p.2 * (p.1 - m) ^ 2)).sum / wsum
        .ok (finishWeighted tppf cl effN n est (wsum * sqrtF (wvar / effN)))
    else if stat == "proportion" then
      if wsum = 0 then .error ()
      else
        let est := (pairs.map (fun p => p.1 * p.2)).sum / wsum
        .ok (finishWeighted tppf cl effN n est (sqrtF (est * (1 - est) / effN)))
    else .ok ⟨none, none, none, none, none, none, n, some effN⟩

/-- `Series.std()`: sample standard deviation (ddof = 1), NaN on fewer than
two observations. -/
def sampleStd (sqrtF : ℚ → ℚ) (xs : List ℚ) : Option ℚ :=
  if 2 ≤ xs.length then
    let m := xs.sum / (xs.length : ℚ)
    some (sqrtF ((xs.map (fun x => (x - m) ^ 2)).sum / ((xs.length : ℚ) - 1)))
  else none

/-- `_calculate_unweighted_estimate`. -/
def calcUnweightedEstimate (sqrtF : ℚ → ℚ) (tppf : ℚ → ℚ → ℚ)
    (vs : List (Option ℚ)) (stat : String) (cl : ℚ) : Estimate :=
  let xs := vs.filterMap id
  let n := xs.length
  if n = 0 then zeroUnweightedRecord
  else if stat == "mean" then
    let est := xs.sum / (n : ℚ)
    finishUnweighted tppf cl n est ((sampleStd sqrtF xs).map (fun s => s / sqrtF (n : ℚ)))
  else if stat == "total" then
    finishUnweighted tppf cl n xs.sum ((sampleStd sqrtF xs).map (fun s => s * sqrtF (n : ℚ)))
  else if stat == "proportion" then
    let est := xs.sum / (n : ℚ)
    finishUnweighted tppf cl n est (some (sqrtF (est * (1 - est) / (n : ℚ))))
  else ⟨none, none, none, none, none, none, n, none⟩

structure EstCfg where
  varname : String
  statistic : String := "mean"
  confidence_level : ℚ := 95/100
deriving DecidableEq, Repr

structure WConfig where
  weight_column : Option String := none
  estimates : List EstCfg := []
deriving DecidableEq, Repr

/-- `_get_weight_statistics` over the cleaned weights (empty-sample
descriptive statistics are NaN in pandas, none here). -/
structure WeightStatsRec where
  count : Nat
  mean : Option ℚ
  median : Option ℚ
  wmin : Option ℚ
  wmax : Option ℚ
  std : Option ℚ
  wsum : ℚ
  effective_sample_size : ℚ
deriving DecidableEq, Repr

def minQ (l : List ℚ) : Option ℚ := (sortQ l).head?
def maxQ (l : List ℚ) : Option ℚ := (sortQ l).getLast?

def weightStatistics (sqrtF : ℚ → ℚ) (ws : List ℚ) : WeightStatsRec :=
  ⟨ws.length,
   if ws.isEmpty then none else some (ws.sum / (ws.length : ℚ)),
   if ws.isEmpty then none else some (quantileSorted (sortQ ws) (1/2)),
   minQ ws, maxQ ws, sampleStd sqrtF ws, ws.sum,
   (ws.length : ℚ) ^ 2 / (ws.map (fun w => w ^ 2)).sum⟩

structure WResults where
  weighted : Option (List (String × Estimate))
  unweighted : List (String × Estimate)
  weight_statistics : Option (WeightStatsRec)
deriving DecidableEq, Repr

/-- Python dict assignment `d[k] = v` for the estimate maps: replace an
existing key, else append. -/
def insertRec (l : List (String × Estimate)) (k : String) (v : Estimate) : List (String × Estimate) :=
  if l.any (fun p => p.1 == k) then l.map (fun p => if p.1 == k then (k, v) else p)
  else l ++ [(k, v)]

/-- The estimate loop of `apply_weights` (lines 53-79): variables absent from
the dataframe are skipped, each processed config contributes a weighted and an
unweighted record under key `variable_statistic`, and an exception from the
weighted calculation propagates out of the loop. -/
def estFold (sqrtF : ℚ → ℚ) (tppf : ℚ → ℚ → ℚ) (df : Table) (ws : List ℚ) :
    List EstCfg → List (String × Estimate) → List (String × Estimate) →
    Except Unit (List (String × Estimate) × List (String × Estimate))
  | [], wl, ul => .ok (wl, ul)
  | ec :: rest, wl, ul =>
    match df.getCol ec.varname with
    | none => estFold sqrtF tppf df ws rest wl ul
    | some cells =>
      match calcWeightedEstimate sqrtF tppf (cells.map cellNumOpt) (ws.map some)
          ec.statistic ec.confidence_level with
      | .error e => .error e
      | .ok wres =>
        estFold sqrtF tppf df ws rest
          (insertRec wl (ec.varname ++ "_" ++ ec.statistic) wres)
          (insertRec ul (ec.varname ++ "_" ++ ec.statistic)
            (calcUnweightedEstimate sqrtF tppf (cells.map cellNumOpt)
              ec.statistic ec.confidence_level))

/-- The estimate loop of `_calculate_unweighted_estimates` (no weight
column). -/
def estFoldU (sqrtF : ℚ → ℚ) (tppf : ℚ → ℚ → ℚ) (df : Table) :
    List EstCfg → List (String × Estimate) → List (String × Estimate)
  | [], ul => ul
  | ec :: rest, ul =>
    match df.getCol ec.varname with
    | none => estFoldU sqrtF tppf df rest ul
    | some cells =>
      estFoldU sqrtF tppf df rest
        (insertRec ul (ec.varname ++ "_" ++ ec.statistic)
          (calcUnweightedEstimate sqrtF tppf (cells.map cellNumOpt)
            ec.statistic ec.confidence_level))

/-- `WeightApplicationEngine.apply_weights`: unweighted-only estimates when
the weight column is missing, otherwise weighted and unweighted estimates over
the cleaned weights. -/
def apply_weights (sqrtF : ℚ → ℚ) (tppf : ℚ → ℚ → ℚ) (df : Table) (cfg : WConfig) :
    Except Unit WResults :=
  match cfg.weight_column with
  | none => .ok ⟨none, estFoldU sqrtF tppf df cfg.estimates [], none⟩
  | some wc =>
    match df.getCol wc with
    | none => .ok ⟨none, estFoldU sqrtF tppf df cfg.estimates [], none⟩
    | some wcells =>
      match estFold sqrtF tppf df (cleanWeights (wcells.map cellNumOpt)) cfg.estimates [] [] with
      | .error e => .error e
      | .ok r =>
        .ok ⟨some r.1, r.2,
          some (weightStatistics sqrtF (cleanWeights (wcells.map cellNumOpt)))⟩

/-! ### Object store: the mutation discipline of the engines

pandas DataFrames are mutable objects; each engine's first statement copies
the caller's frame (`df.copy()`, imputation.py line 33, outliers.py line 31,
validation.py line 32) and every subsequent in-place write in the source
targets the copy, while `apply_weights` only reads `df` (it copies the weight
Series, weights.py line 39).  The store below makes that discipline explicit:
the caller's table lives under a reference, the copy is allocated at a fresh
reference, and the engine's result is written there. -/

abbrev Store := List (Nat × Table)

def Store.getT (σ : Store) (r : Nat) : Table :=
  (((σ.find? (fun p => p.1 == r)).map Prod.snd)).getD ⟨[], []⟩

def Store.setT (σ : Store) (r : Nat) (t : Table) : Store := (r, t) :: σ

def freshRef (σ : Store) : Nat := (σ.map Prod.fst).foldr (fun a b => max a b) 0 + 1

def imputeOnStore (σ : Store) (r : Nat) (cfg : List (String × String)) :
    Store × Nat × ImpStats :=
  let df := σ.getT r
  let rc := freshRef σ
  let res := impute_missing_values df cfg
  (σ.setT rc res.1, rc, res.2)

def outliersOnStore (σ : Store) (r : Nat) (cfg : List (String × OutCfg)) :
    Store × Nat × OutStats :=
  let df := σ.getT r
  let rc := freshRef σ
  let res := detect_outliers df cfg
  (σ.setT rc res.1, rc, res.2)

def validateOnStore (σ : Store) (r : Nat) (rules : List VRule) :
    Store × Nat × VStats :=
  let df := σ.getT r
  let rc := freshRef σ
  let res := validate_data df rules
  (σ.setT rc res.1, rc, res.2)

def weightsOnStore (sqrtF : ℚ → ℚ) (tppf : ℚ → ℚ → ℚ) (σ : Store) (r : Nat) (cfg : WConfig) :
    Store × Except Unit WResults :=
  (σ, apply_weights sqrtF tppf (σ.getT r) cfg)

/-! ### Basic lemmas about the table operations -/

theorem find?_setColAux_self (c : String) (cs : List Cell) (l : List (String × List Cell)) :
    (setColAux c cs l).find? (fun p => p.1 == c) = some (c, cs) := by
  induction l with
  | nil =>
    rw [setColAux, List.find?_cons_of_pos]
    simp
  | cons p ps ih =>
    by_cases h : p.1 = c
    · rw [setColAux]
      simp only [h, beq_self_eq_true, if_true]
      rw [List.find?_cons_of_pos]
      simp
    · rw [setColAux]
      simp only [beq_iff_eq, h, if_false]
      rw [List.find?_cons_of_neg]
      · exact ih
      · simp [h]

theorem find?_setColAux_ne (c c' : String) (cs : List Cell) (l : List (String × List Cell))
    (h : c' ≠ c) :
    (setColAux c cs l).find? (fun p => p.1 == c') = l.find? (fun p => p.1 == c') := by
  induction l with
  | nil =>
    rw [setColAux, List.find?_cons_of_neg, List.find?_nil]
    simp [Ne.symm h]
  | cons p ps ih =>
    by_cases hp : p.1 = c
    · rw [setColAux]
      simp only [hp, beq_self_eq_true, if_true]
      rw [List.find?_cons_of_neg, List.find?_cons_of_neg]
      · simp [hp, Ne.symm h]
      · simp [Ne.symm h]
    · rw [setColAux]
      simp only [beq_iff_eq, hp, if_false]
      by_cases hc : p.1 = c'
      · rw [List.find?_cons_of_pos, List.find?_cons_of_pos] <;> simp [hc]
      · rw [List.find?_cons_of_neg, List.find?_cons_of_neg]
        · exact ih
        · simp [hc]
        · simp [hc]

theorem getCol_setCol_self (t : Table) (c : String) (cs : List Cell) :
    (t.setCol c cs).getCol c = some cs := by
  show ((setColAux c cs t.cols).find? (fun p => p.1 == c)).map Prod.snd = some cs
  rw [find?_setColAux_self]
  rfl

theorem getCol_setCol_ne (t : Table) (c c' : String) (cs : List Cell) (h : c' ≠ c) :
    (t.setCol c cs).getCol c' = t.getCol c' := by
  show ((setColAux c cs t.cols).find? (fun p => p.1 == c')).map Prod.snd = _
  rw [find?_setColAux_ne _ _ _ _ h]
  rfl

theorem setCol_idx (t : Table) (c : String) (cs : List Cell) :
    (t.setCol c cs).idx = t.idx := rfl

theorem getColD_setCol_self (t : Table) (c : String) (cs : List Cell) :
    (t.setCol c cs).getColD c = cs := by
  unfold Table.getColD
  rw [getCol_setCol_self]
  rfl

theorem mem_colNames_of_getCol (t : Table) (c : String) (cs : List Cell)
    (h : t.getCol c = some cs) : c ∈ t.colNames := by
  unfold Table.getCol at h
  cases hf : t.cols.find? (fun p => p.1 == c) with
  | none => rw [hf] at h; simp at h
  | some p =>
    have hmem := List.mem_of_find?_eq_some hf
    have hpred := List.find?_some hf
    have hp : p.1 = c := by simpa using hpred
    exact hp ▸ List.mem_map_of_mem Prod.fst hmem

theorem map_fst_setColAux (c : String) (cs : List Cell) (l : List (String × List Cell))
    (h : c ∈ l.map Prod.fst) :
    (setColAux c cs l).map Prod.fst = l.map Prod.fst := by
  induction l with
  | nil => simp at h
  | cons p ps ih =>
    by_cases hp : p.1 = c
    · simp [setColAux, hp]
    · rw [List.map_cons] at h
      have h' : c ∈ ps.map Prod.fst := by
        rcases List.mem_cons.mp h with h0 | h0
        · exact absurd h0.symm hp
        · exact h0
      rw [setColAux]
      simp only [beq_iff_eq, hp, if_false, List.map_cons]
      rw [ih h']

theorem colNames_setCol_mem (t : Table) (c : String) (cs : List Cell)
    (h : c ∈ t.colNames) : (t.setCol c cs).colNames = t.colNames :=
  map_fst_setColAux c cs t.cols h

theorem sum_missing_setColAux (c : String) (cs : List Cell) (l : List (String × List Cell))
    (h : c ∈ l.map Prod.fst) :
    ((setColAux c cs l).map (fun p => countMissing p.2)).sum
        + countMissing (((l.find? (fun p => p.1 == c)).map Prod.snd).getD [])
      = (l.map (fun p => countMissing p.2)).sum + countMissing cs := by
  induction l with
  | nil => simp at h
  | cons p ps ih =>
    by_cases hp : p.1 = c
    · rw [setColAux]
      simp only [hp, beq_self_eq_true, if_true, List.map_cons, List.sum_cons]
      rw [List.find?_cons_of_pos]
      · simp only [Option.map_some', Option.getD_some]
        omega
      · simp [hp]
    · rw [List.map_cons] at h
      have h' : c ∈ ps.map Prod.fst := by
        rcases List.mem_cons.mp h with h0 | h0
        · exact absurd h0.symm hp
        · exact h0
      rw [setColAux]
      simp only [beq_iff_eq, hp, if_false, List.map_cons, List.sum_cons]
      rw [List.find?_cons_of_neg]
      · have := ih h'
        omega
      · simp [hp]

theorem totalMissing_setCol (t : Table) (c : String) (cs : List Cell)
    (h : c ∈ t.colNames) :
    totalMissing (t.setCol c cs) + countMissing (t.getColD c)
      = totalMissing t + countMissing cs :=
  sum_missing_setColAux c cs t.cols h

theorem countMissing_map_fill (q : ℚ) (cs : List Cell) :
    countMissing (cs.map (fun c => match c with | Cell.missingC => Cell.numC q | c => c)) = 0 := by
  induction cs with
  | nil => rfl
  | cons x xs ih =>
    rw [List.map_cons]
    unfold countMissing at ih ⊢
    rw [List.countP_cons]
    cases x <;> simp [isMissing, ih]

theorem countMissing_fillCells_some (cs : List Cell) (q : ℚ) :
    countMissing (fillCells cs (some q)) = 0 :=
  countMissing_map_fill q cs

theorem countMissing_fillCells_le (cs : List Cell) (v : Option ℚ) :
    countMissing (fillCells cs v) ≤ countMissing cs := by
  cases v with
  | none => exact le_rfl
  | some q => rw [countMissing_fillCells_some]; exact Nat.zero_le _

theorem getColD_congr {t t' : Table} {c : String} (h : t.getCol c = t'.getCol c) :
    t.getColD c = t'.getColD c := by
  unfold Table.getColD
  rw [h]

theorem sumImputed_append (a b : List ImpRec) :
    sumImputed (a ++ b) = sumImputed a + sumImputed b := by
  unfold sumImputed
  rw [List.map_append, List.sum_append]

theorem length_insSorted (q : ℚ) (l : List ℚ) : (insSorted q l).length = l.length + 1 := by
  induction l with
  | nil => rfl
  | cons x xs ih =>
    rw [insSorted]
    by_cases h : q ≤ x
    · simp [h]
    · simp only [h, if_false, List.length_cons]
      omega

theorem length_sortQ (l : List ℚ) : (sortQ l).length = l.length := by
  induction l with
  | nil => rfl
  | cons x xs ih =>
    show (insSorted x (sortQ xs)).length = xs.length + 1
    rw [length_insSorted, ih]

theorem meanOpt_pos (cs : List Cell) (h : 0 < (numsOf cs).length) :
    ∃ m, meanOpt cs = some m := by
  unfold meanOpt
  rw [if_neg]
  · exact ⟨_, rfl⟩
  · cases hc : numsOf cs with
    | nil => rw [hc] at h; simp at h
    | cons a l => simp

theorem medianOpt_pos (cs : List Cell) (h : 0 < (numsOf cs).length) :
    ∃ m, medianOpt cs = some m := by
  unfold medianOpt quantileOpt
  rw [if_neg]
  · exact ⟨_, rfl⟩
  · have : (sortQ (numsOf cs)).length = (numsOf cs).length := length_sortQ _
    cases hc : sortQ (numsOf cs) with
    | nil => rw [hc] at this; simp at this; omega
    | cons a l => simp

theorem imputeChoice_fill_inv (m : String) (orig cur cs : List Cell)
    (h : imputeChoice m orig cur = .fill cs) : ∃ v, cs = fillCells cur v := by
  unfold imputeChoice at h
  by_cases h1 : (m == "mean" && isNumericCells orig) = true
  · rw [if_pos h1] at h
    exact ⟨meanOpt orig, (ImpChoice.fill.injEq _ _ ▸ h).symm⟩
  · rw [if_neg h1] at h
    by_cases h2 : (m == "median" && isNumericCells orig) = true
    · rw [if_pos h2] at h
      exact ⟨medianOpt orig, (ImpChoice.fill.injEq _ _ ▸ h).symm⟩
    · rw [if_neg h2] at h
      by_cases h3 : (m == "mode") = true
      · rw [if_pos h3] at h
        cases hm : modeOpt orig with
        | none => rw [hm] at h; exact absurd h (by simp)
        | some mv =>
          rw [hm] at h
          exact ⟨some mv, by simpa using h.symm⟩
      · rw [if_neg h3] at h
        exact absurd h (by simp)

theorem imputeChoice_mean (orig cur : List Cell) (hn : isNumericCells orig = true)
    (hobs : 0 < (numsOf orig).length) :
    ∃ q : ℚ, imputeChoice "mean" orig cur = .fill (fillCells cur (some q)) := by
  obtain ⟨m, hm⟩ := meanOpt_pos orig hobs
  refine ⟨m, ?_⟩
  unfold imputeChoice
  rw [if_pos (by simp [hn]), hm]

theorem imputeChoice_median (orig cur : List Cell) (hn : isNumericCells orig = true)
    (hobs : 0 < (numsOf orig).length) :
    ∃ q : ℚ, imputeChoice "median" orig cur = .fill (fillCells cur (some q)) := by
  obtain ⟨m, hm⟩ := medianOpt_pos orig hobs
  refine ⟨m, ?_⟩
  unfold imputeChoice
  rw [if_neg (by simp), if_pos (by simp [hn]), hm]

/-- Invariant of the imputation config loop: given that the running frame
still agrees with the caller's frame on all configured columns (distinct by
dict semantics) and has the same column names, the loop preserves the column
names, leaves unconfigured columns untouched, decreases the total missing
count by exactly the sum of the recorded imputed counts, and leaves a
mean/median-configured numeric column with observed values fully imputed. -/
theorem imputeFold_spec (df : Table) (cfg : List (String × String)) :
    ∀ (t : Table) (recs : List ImpRec),
    (∀ e ∈ cfg, t.getCol e.1 = df.getCol e.1) →
    ((cfg.map Prod.fst).Nodup) →
    t.colNames = df.colNames →
    (cfg.foldl (imputeStep df) (t, recs)).1.colNames = df.colNames ∧
    (∀ c, c ∉ cfg.map Prod.fst →
      (cfg.foldl (imputeStep df) (t, recs)).1.getCol c = t.getCol c) ∧
    (totalMissing (cfg.foldl (imputeStep df) (t, recs)).1
       + sumImputed (cfg.foldl (imputeStep df) (t, recs)).2
     = totalMissing t + sumImputed recs) ∧
    (∀ e ∈ cfg, (e.2 = "mean" ∨ e.2 = "median") →
      ∀ cells, df.getCol e.1 = some cells → isNumericCells cells = true →
      0 < (numsOf cells).length →
      countMissing ((cfg.foldl (imputeStep df) (t, recs)).1.getColD e.1) = 0) := by
  induction cfg with
  | nil =>
    intro t recs _ _ h3
    exact ⟨h3, fun c _ => rfl, rfl, fun e he => absurd he (List.not_mem_nil e)⟩
  | cons e cfg ih =>
    intro t recs h1 h2 h3
    rw [List.map_cons] at h2
    have hnd_tail : (cfg.map Prod.fst).Nodup := (List.nodup_cons.mp h2).2
    have hnotin : e.1 ∉ cfg.map Prod.fst := (List.nodup_cons.mp h2).1
    have h1e : t.getCol e.1 = df.getCol e.1 := h1 e (List.mem_cons_self e cfg)
    have h1tail : ∀ e' ∈ cfg, t.getCol e'.1 = df.getCol e'.1 :=
      fun e' he' => h1 e' (List.mem_cons_of_mem e he')
    have hne_tail : ∀ e' ∈ cfg, e'.1 ≠ e.1 := by
      intro e' he' hEq
      exact hnotin (hEq ▸ List.mem_map_of_mem Prod.fst he')
    rw [List.foldl_cons]
    cases hcol : df.getCol e.1 with
    | none =>
      have hstep : imputeStep df (t, recs) e = (t, recs) := by
        simp only [imputeStep, hcol]
      rw [hstep]
      have H := ih t recs h1tail hnd_tail h3
      refine ⟨H.1, ?_, H.2.2.1, ?_⟩
      · intro c hc
        rw [List.map_cons] at hc
        exact H.2.1 c (fun hmem => hc (List.mem_cons_of_mem _ hmem))
      · intro e' he' hml cells hcells hnum hobs
        rcases List.mem_cons.mp he' with rfl | he'
        · rw [hcol] at hcells; exact absurd hcells (by simp)
        · exact H.2.2.2 e' he' hml cells hcells hnum hobs
    | some orig =>
      have hcure : t.getColD e.1 = orig := by
        unfold Table.getColD
        rw [h1e, hcol]
        rfl
      by_cases hm : countMissing orig = 0
      · have hstep : imputeStep df (t, recs) e = (t, recs) := by
          simp only [imputeStep, hcol, hm, if_true]
        rw [hstep]
        have H := ih t recs h1tail hnd_tail h3
        refine ⟨H.1, ?_, H.2.2.1, ?_⟩
        · intro c hc
          rw [List.map_cons] at hc
          exact H.2.1 c (fun hmem => hc (List.mem_cons_of_mem _ hmem))
        · intro e' he' hml cells hcells hnum hobs
          rcases List.mem_cons.mp he' with rfl | he'
          · rw [hcol] at hcells
            have hco : orig = cells := by simpa using hcells
            have hfix : (cfg.foldl (imputeStep df) (t, recs)).1.getCol e'.1 = t.getCol e'.1 :=
              H.2.1 e'.1 hnotin
            unfold Table.getColD
            rw [hfix, h1e, hcol]
            simpa [← hco] using hm
          · exact H.2.2.2 e' he' hml cells hcells hnum hobs
      · cases hch : imputeChoice e.2 orig (t.getColD e.1) with
        | skip =>
          have hstep : imputeStep df (t, recs) e = (t, recs) := by
            simp only [imputeStep, hcol, hch]
            rw [if_neg hm]
          rw [hstep]
          have H := ih t recs h1tail hnd_tail h3
          refine ⟨H.1, ?_, H.2.2.1, ?_⟩
          · intro c hc
            rw [List.map_cons] at hc
            exact H.2.1 c (fun hmem => hc (List.mem_cons_of_mem _ hmem))
          · intro e' he' hml cells hcells hnum hobs
            rcases List.mem_cons.mp he' with rfl | he'
            · rw [hcol] at hcells
              have hco : orig = cells := by simpa using hcells
              subst hco
              rcases hml with hme | hme
              · obtain ⟨q, hq⟩ := imputeChoice_mean orig (t.getColD e'.1) hnum hobs
                rw [hme] at hch
                rw [hq] at hch
                exact absurd hch (by simp)
              · obtain ⟨q, hq⟩ := imputeChoice_median orig (t.getColD e'.1) hnum hobs
                rw [hme] at hch
                rw [hq] at hch
                exact absurd hch (by simp)
            · exact H.2.2.2 e' he' hml cells hcells hnum hobs
        | keep =>
          have hstep : imputeStep df (t, recs) e =
              (t, recs ++ [⟨e.1, e.2, countMissing orig,
                countMissing orig - countMissing (t.getColD e.1)⟩]) := by
            simp only [imputeStep, hcol, hch]
            rw [if_neg hm]
          rw [hstep]
          have H := ih t (recs ++ [⟨e.1, e.2, countMissing orig,
                countMissing orig - countMissing (t.getColD e.1)⟩]) h1tail hnd_tail h3
          refine ⟨H.1, ?_, ?_, ?_⟩
          · intro c hc
            rw [List.map_cons] at hc
            exact H.2.1 c (fun hmem => hc (List.mem_cons_of_mem _ hmem))
          · rw [H.2.2.1, sumImputed_append, hcure]
            have : sumImputed [⟨e.1, e.2, countMissing orig, countMissing orig - countMissing orig⟩]
                = 0 := by simp [sumImputed]
            rw [this]
            omega
          · intro e' he' hml cells hcells hnum hobs
            rcases List.mem_cons.mp he' with rfl | he'
            · rw [hcol] at hcells
              have hco : orig = cells := by simpa using hcells
              subst hco
              rcases hml with hme | hme
              · obtain ⟨q, hq⟩ := imputeChoice_mean orig (t.getColD e'.1) hnum hobs
                rw [hme] at hch
                rw [hq] at hch
                exact absurd hch (by simp)
              · obtain ⟨q, hq⟩ := imputeChoice_median orig (t.getColD e'.1) hnum hobs
                rw [hme] at hch
                rw [hq] at hch
                exact absurd hch (by simp)
            · exact H.2.2.2 e' he' hml cells hcells hnum hobs
        | fill cs =>
          have hstep : imputeStep df (t, recs) e =
              (t.setCol e.1 cs, recs ++ [⟨e.1, e.2, countMissing orig,
                countMissing orig - countMissing ((t.setCol e.1 cs).getColD e.1)⟩]) := by
            simp only [imputeStep, hcol, hch]
            rw [if_neg hm]
          have hmemcol : e.1 ∈ t.colNames := by
            apply mem_colNames_of_getCol t e.1 orig
            rw [h1e, hcol]
          have hpre1 : ∀ e' ∈ cfg, (t.setCol e.1 cs).getCol e'.1 = df.getCol e'.1 := by
            intro e' he'
            rw [getCol_setCol_ne t e.1 e'.1 cs (hne_tail e' he')]
            exact h1tail e' he'
          have hpre3 : (t.setCol e.1 cs).colNames = df.colNames := by
            rw [colNames_setCol_mem t e.1 cs hmemcol]
            exact h3
          rw [hstep]
          have H := ih (t.setCol e.1 cs) (recs ++ [⟨e.1, e.2, countMissing orig,
                countMissing orig - countMissing ((t.setCol e.1 cs).getColD e.1)⟩])
              hpre1 hnd_tail hpre3
          obtain ⟨v, hv⟩ := imputeChoice_fill_inv e.2 orig (t.getColD e.1) cs hch
          have hcsle : countMissing cs ≤ countMissing orig := by
            rw [hv, ← hcure]
            exact countMissing_fillCells_le _ _
          refine ⟨H.1, ?_, ?_, ?_⟩
          · intro c hc
            rw [List.map_cons] at hc
            have hcne : c ≠ e.1 := fun hEq => hc (hEq ▸ List.mem_cons_self _ _)
            rw [H.2.1 c (fun hmem => hc (List.mem_cons_of_mem _ hmem))]
            exact getCol_setCol_ne t e.1 c cs hcne
          · rw [H.2.2.1, sumImputed_append, getColD_setCol_self]
            have hone : sumImputed [⟨e.1, e.2, countMissing orig,
                countMissing orig - countMissing cs⟩] = countMissing orig - countMissing cs := by
              simp [sumImputed]
            rw [hone]
            have htm := totalMissing_setCol t e.1 cs hmemcol
            rw [hcure] at htm
            omega
          · intro e' he' hml cells hcells hnum hobs
            rcases List.mem_cons.mp he' with rfl | he'
            · rw [hcol] at hcells
              have hco : orig = cells := by simpa using hcells
              subst hco
              have hfix := H.2.1 e'.1 hnotin
              rw [getColD_congr hfix, getColD_setCol_self]
              have hcs0 : countMissing cs = 0 := by
                rcases hml with hme | hme
                · obtain ⟨q, hq⟩ := imputeChoice_mean orig (t.getColD e'.1) hnum hobs
                  rw [hme] at hch
                  rw [hq] at hch
                  have : fillCells (t.getColD e'.1) (some q) = cs := by simpa using hch
                  rw [← this]
                  exact countMissing_fillCells_some _ _
                · obtain ⟨q, hq⟩ := imputeChoice_median orig (t.getColD e'.1) hnum hobs
                  rw [hme] at hch
                  rw [hq] at hch
                  have : fillCells (t.getColD e'.1) (some q) = cs := by simpa using hch
                  rw [← this]
                  exact countMissing_fillCells_some _ _
              exact hcs0
            · exact H.2.2.2 e' he' hml cells hcells hnum hobs

/-! ### Claim C1 -/

/-- C1 (amended): for every table and imputation config entry (distinct
configured columns, no external `knn` entries, `mode` only on numeric columns
in the modelled fragment) targeting a numeric column with method mean or
median, PROVIDED the column also has at least one observed value, the
returned table has zero missing values in that column; and unconditionally
`total_missing_after = total_missing_before - Σ imputed_count` over the
processed columns (proved in the exact additive form as well).  The original
claim fails on a column whose values are all missing: the mean is NaN and
`fillna` fills nothing (see `imputation_c1_cex`). -/
theorem imputation_c1_amended (df : Table) (cfg : List (String × String))
    (hnd : (cfg.map Prod.fst).Nodup)
    (hscope : ∀ e ∈ cfg, e.2 ≠ "knn" ∧ (e.2 = "mode" → isNumericCells (df.getColD e.1) = true)) :
    (∀ e ∈ cfg, (e.2 = "mean" ∨ e.2 = "median") →
      ∀ cells, df.getCol e.1 = some cells → isNumericCells cells = true →
      0 < (numsOf cells).length →
      countMissing ((impute_missing_values df cfg).1.getColD e.1) = 0) ∧
    (impute_missing_values df cfg).2.total_missing_after
        + sumImputed (impute_missing_values df cfg).2.columns_processed
      = (impute_missing_values df cfg).2.total_missing_before ∧
    (impute_missing_values df cfg).2.total_missing_after
      = (impute_missing_values df cfg).2.total_missing_before
        - sumImputed (impute_missing_values df cfg).2.columns_processed := by
  have H := imputeFold_spec df cfg df [] (fun _ _ => rfl) hnd rfl
  have heq : totalMissing (cfg.foldl (imputeStep df) (df, [])).1
      + sumImputed (cfg.foldl (imputeStep df) (df, [])).2 = totalMissing df := by
    have := H.2.2.1
    simpa [sumImputed] using this
  refine ⟨?_, ?_, ?_⟩
  · intro e he hml cells hcells hnum hobs
    exact H.2.2.2 e he hml cells hcells hnum hobs
  · show totalMissing (cfg.foldl (imputeStep df) (df, [])).1
        + sumImputed (cfg.foldl (imputeStep df) (df, [])).2 = totalMissing df
    exact heq
  · show totalMissing (cfg.foldl (imputeStep df) (df, [])).1
        = totalMissing df - sumImputed (cfg.foldl (imputeStep df) (df, [])).2
    omega

def c1wdf : Table := ⟨[0, 1, 2], [("x", [Cell.numC 1, Cell.missingC, Cell.numC 3])]⟩

/-- C1 witness: on the table `{x: [1, NaN, 3]}` with mean imputation the
theorem's hypotheses hold and the column is fully imputed with consistent
stats. -/
theorem imputation_c1_witness :
    countMissing ((impute_missing_values c1wdf [("x", "mean")]).1.getColD "x") = 0 ∧
    (impute_missing_values c1wdf [("x", "mean")]).2.total_missing_after
        + sumImputed (impute_missing_values c1wdf [("x", "mean")]).2.columns_processed
      = (impute_missing_values c1wdf [("x", "mean")]).2.total_missing_before := by
  have H := imputation_c1_amended c1wdf [("x", "mean")] (by decide) (by decide)
  refine ⟨?_, H.2.1⟩
  exact H.1 ("x", "mean") (by decide) (by decide) [Cell.numC 1, Cell.missingC, Cell.numC 3]
    rfl (by decide) (by decide)

def c1df : Table := ⟨[0], [("x", [Cell.missingC])]⟩

/-- C1 counterexample: the claim as stated fails on the numeric column
`{x: [NaN]}` with mean imputation — the column has a missing value, the claim
demands zero missing values after imputation, but the mean of an all-missing
column is NaN, so `fillna` leaves the cell missing. -/
theorem imputation_c1_cex :
    isNumericCells (c1df.getColD "x") = true ∧
    0 < countMissing (c1df.getColD "x") ∧
    countMissing ((impute_missing_values c1df [("x", "mean")]).1.getColD "x") = 1 := by
  decide

/-! ### Claims C3 and C6: lemmas about the outlier loop -/

theorem mem_filterRows_idx (t : Table) (keep : Nat → Bool) (l : Nat)
    (h : l ∈ (t.filterRows keep).idx) : l ∈ t.idx ∧ keep l = true := by
  unfold Table.filterRows at h
  exact ⟨List.mem_of_mem_filter h, List.of_mem_filter h⟩

theorem filterRows_idx_length_le (t : Table) (keep : Nat → Bool) :
    (t.filterRows keep).idx.length ≤ t.idx.length :=
  List.length_filter_le _ _

theorem maskAt_false_of_count_zero (labels : List Nat) (mask : List Bool) (l : Nat)
    (h : mask.count true = 0) : maskAt labels mask l = false := by
  unfold maskAt
  cases hf : (labels.zip mask).find? (fun p => p.1 == l) with
  | none => rfl
  | some p =>
    obtain ⟨a, b⟩ := p
    have hmem := List.mem_of_find?_eq_some hf
    have hpm : b ∈ mask := (List.of_mem_zip hmem).2
    simp only [Option.map_some', Option.getD_some]
    cases hb : b with
    | false => rfl
    | true =>
      rw [hb] at hpm
      have := List.count_pos_iff_mem.mpr hpm
      omega

/-- Invariant of the outlier config loop when every configured action is
`remove`: the processed frame's labels only shrink, and every surviving label
is unflagged by the detection mask of every applicable configured column,
where each mask is computed from the caller's original frame. -/
theorem outFold_remove (df : Table) (cfg : List (String × OutCfg)) :
    ∀ (t : Table) (recs : List OutRec) (tot : Nat),
    (∀ e ∈ cfg, e.2.action.getD "flag" = "remove") →
    (∀ l ∈ (cfg.foldl (outStep df) (t, recs, tot)).1.idx, l ∈ t.idx) ∧
    (cfg.foldl (outStep df) (t, recs, tot)).1.idx.length ≤ t.idx.length ∧
    (∀ e ∈ cfg, ∀ cells, df.getCol e.1 = some cells → isNumericCells cells = true →
      ∀ l ∈ (cfg.foldl (outStep df) (t, recs, tot)).1.idx,
        maskAt df.idx (detectColumnOutliers cells e.2) l = false) := by
  induction cfg with
  | nil =>
    intro t recs tot _
    exact ⟨fun l hl => hl, le_rfl, fun e he => absurd he (List.not_mem_nil e)⟩
  | cons e cfg ih =>
    intro t recs tot hact
    have hacthead : e.2.action.getD "flag" = "remove" := hact e (List.mem_cons_self e cfg)
    have hacttail : ∀ e' ∈ cfg, e'.2.action.getD "flag" = "remove" :=
      fun e' he' => hact e' (List.mem_cons_of_mem e he')
    have hbeq : (e.2.action.getD "flag" == "remove") = true := by rw [hacthead]; rfl
    rw [List.foldl_cons]
    cases hcol : df.getCol e.1 with
    | none =>
      have hstep : outStep df (t, recs, tot) e = (t, recs, tot) := by
        simp only [outStep, hcol]
      rw [hstep]
      have H := ih t recs tot hacttail
      refine ⟨H.1, H.2.1, ?_⟩
      intro e' he' cells hcells hnum l hl
      rcases List.mem_cons.mp he' with rfl | he'
      · rw [hcol] at hcells; exact absurd hcells (by simp)
      · exact H.2.2 e' he' cells hcells hnum l hl
    | some orig =>
      by_cases hnum : isNumericCells orig = true
      · by_cases hcnt : 0 < (detectColumnOutliers orig e.2).count true
        · have hstep : outStep df (t, recs, tot) e =
              (t.filterRows (fun l => !(maskAt df.idx (detectColumnOutliers orig e.2) l)),
               recs ++ [⟨e.1, e.2.method.getD "iqr", e.2.action.getD "flag",
                 (detectColumnOutliers orig e.2).count true,
                 (((detectColumnOutliers orig e.2).count true : ℚ)) / (df.idx.length : ℚ) * 100⟩],
               tot + (detectColumnOutliers orig e.2).count true) := by
            simp only [outStep, hcol]
            rw [if_pos hnum, if_pos hcnt, if_pos hbeq]
          rw [hstep]
          have H := ih (t.filterRows (fun l => !(maskAt df.idx (detectColumnOutliers orig e.2) l)))
            (recs ++ [⟨e.1, e.2.method.getD "iqr", e.2.action.getD "flag",
              (detectColumnOutliers orig e.2).count true,
              (((detectColumnOutliers orig e.2).count true : ℚ)) / (df.idx.length : ℚ) * 100⟩])
            (tot + (detectColumnOutliers orig e.2).count true) hacttail
          refine ⟨?_, ?_, ?_⟩
          · intro l hl
            exact (mem_filterRows_idx _ _ _ (H.1 l hl)).1
          · exact le_trans H.2.1 (filterRows_idx_length_le _ _)
          · intro e' he' cells hcells hnum' l hl
            rcases List.mem_cons.mp he' with rfl | he'
            · have hco : orig = cells := by rw [hcol] at hcells; simpa using hcells
              subst hco
              have hk := (mem_filterRows_idx _ _ _ (H.1 l hl)).2
              simpa using hk
            · exact H.2.2 e' he' cells hcells hnum' l hl
        · have hstep : outStep df (t, recs, tot) e =
              (t, recs ++ [⟨e.1, e.2.method.getD "iqr", e.2.action.getD "flag",
                 (detectColumnOutliers orig e.2).count true,
                 (((detectColumnOutliers orig e.2).count true : ℚ)) / (df.idx.length : ℚ) * 100⟩],
               tot + (detectColumnOutliers orig e.2).count true) := by
            simp only [outStep, hcol]
            rw [if_pos hnum, if_neg hcnt]
          rw [hstep]
          have H := ih t (recs ++ [⟨e.1, e.2.method.getD "iqr", e.2.action.getD "flag",
              (detectColumnOutliers orig e.2).count true,
              (((detectColumnOutliers orig e.2).count true : ℚ)) / (df.idx.length : ℚ) * 100⟩])
            (tot + (detectColumnOutliers orig e.2).count true) hacttail
          refine ⟨H.1, H.2.1, ?_⟩
          intro e' he' cells hcells hnum' l hl
          rcases List.mem_cons.mp he' with rfl | he'
          · have hco : orig = cells := by rw [hcol] at hcells; simpa using hcells
            subst hco
            apply maskAt_false_of_count_zero
            omega
          · exact H.2.2 e' he' cells hcells hnum' l hl
      · have hstep : outStep df (t, recs, tot) e = (t, recs, tot) := by
          simp only [outStep, hcol]
          rw [if_neg hnum]
        rw [hstep]
        have H := ih t recs tot hacttail
        refine ⟨H.1, H.2.1, ?_⟩
        intro e' he' cells hcells hnum' l hl
        rcases List.mem_cons.mp he' with rfl | he'
        · have hco : orig = cells := by rw [hcol] at hcells; simpa using hcells
          subst hco
          exact absurd hnum' hnum
        · exact H.2.2 e' he' cells hcells hnum' l hl

/-- C3: for every outlier config whose configured entries all use action
`remove`, the table returned by `detect_outliers` has at most as many rows as
the input, and no surviving row is flagged by the configured outlier
predicate of any processed (present, numeric) column, the predicate's bounds
being computed from the original, unmodified input data (the source computes
every mask from `df[column]`, not from the shrinking `df_processed`). -/
theorem outliers_remove_c3 (df : Table) (cfg : List (String × OutCfg))
    (hact : ∀ e ∈ cfg, e.2.action.getD "flag" = "remove") :
    (detect_outliers df cfg).1.idx.length ≤ df.idx.length ∧
    (∀ e ∈ cfg, ∀ cells, df.getCol e.1 = some cells → isNumericCells cells = true →
      ∀ l ∈ (detect_outliers df cfg).1.idx,
        maskAt df.idx (detectColumnOutliers cells e.2) l = false) := by
  have H := outFold_remove df cfg df [] 0 hact
  exact ⟨H.2.1, H.2.2⟩

def c3df : Table := ⟨[0, 1, 2, 3], [("x", [Cell.numC 1, Cell.numC 2, Cell.numC 3, Cell.numC 100])]⟩

unseal Rat.mul Rat.add Rat.sub Rat.inv in
/-- C3 witness: on `{x: [1, 2, 3, 100]}` with IQR detection and action
`remove`, the returned table is no longer than the input and the surviving
label 0 is unflagged by the original-data mask. -/
theorem outliers_remove_c3_witness :
    (detect_outliers c3df [("x", { action := some "remove" })]).1.idx.length
        ≤ c3df.idx.length ∧
    maskAt c3df.idx
      (detectColumnOutliers [Cell.numC 1, Cell.numC 2, Cell.numC 3, Cell.numC 100]
        { action := some "remove" }) 0 = false := by
  have H := outliers_remove_c3 c3df [("x", { action := some "remove" })] (by decide)
  refine ⟨H.1, ?_⟩
  exact H.2 ("x", { action := some "remove" }) (by decide)
    [Cell.numC 1, Cell.numC 2, Cell.numC 3, Cell.numC 100] rfl (by decide) 0 (by decide)

theorem hasCol_false_getCol (t : Table) (c : String) (h : t.hasCol c = false) :
    t.getCol c = none := by
  unfold Table.hasCol at h
  cases hc : t.getCol c with
  | none => rfl
  | some cs => rw [hc] at h; simp at h

/-- Invariant of the outlier config loop when every configured action is
`flag`: the index is preserved, columns other than the added flag columns are
untouched, and each applicable configured column with a positive outlier
count gains the boolean flag column equal to its detection mask over the
original frame (no column is added when the count is zero). -/
theorem outFold_flag (df : Table) (cfg : List (String × OutCfg)) :
    ∀ (t : Table) (recs : List OutRec) (tot : Nat),
    (∀ e ∈ cfg, e.2.action.getD "flag" = "flag") →
    t.idx = df.idx →
    (∀ e ∈ cfg, t.hasCol (e.1 ++ "_outlier_flag") = false) →
    ((cfg.map (fun e => e.1 ++ "_outlier_flag")).Nodup) →
    (cfg.foldl (outStep df) (t, recs, tot)).1.idx = t.idx ∧
    (∀ s, s ∉ cfg.map (fun e => e.1 ++ "_outlier_flag") →
      (cfg.foldl (outStep df) (t, recs, tot)).1.getCol s = t.getCol s) ∧
    (∀ e ∈ cfg, ∀ cells, df.getCol e.1 = some cells → isNumericCells cells = true →
      if 0 < (detectColumnOutliers cells e.2).count true then
        (cfg.foldl (outStep df) (t, recs, tot)).1.getCol (e.1 ++ "_outlier_flag")
          = some (df.idx.map (fun l => Cell.boolC (maskAt df.idx (detectColumnOutliers cells e.2) l)))
      else
        (cfg.foldl (outStep df) (t, recs, tot)).1.getCol (e.1 ++ "_outlier_flag") = none) := by
  induction cfg with
  | nil =>
    intro t recs tot _ _ _ _
    exact ⟨rfl, fun s _ => rfl, fun e he => absurd he (List.not_mem_nil e)⟩
  | cons e cfg ih =>
    intro t recs tot hact hidx hfresh hnd
    have hacthead : e.2.action.getD "flag" = "flag" := hact e (List.mem_cons_self e cfg)
    have hacttail : ∀ e' ∈ cfg, e'.2.action.getD "flag" = "flag" :=
      fun e' he' => hact e' (List.mem_cons_of_mem e he')
    rw [List.map_cons] at hnd
    have hnotin : (e.1 ++ "_outlier_flag") ∉ cfg.map (fun e => e.1 ++ "_outlier_flag") :=
      (List.nodup_cons.mp hnd).1
    have hnd_tail := (List.nodup_cons.mp hnd).2
    have hfreshhead := hfresh e (List.mem_cons_self e cfg)
    have hfreshtail : ∀ e' ∈ cfg, t.hasCol (e'.1 ++ "_outlier_flag") = false :=
      fun e' he' => hfresh e' (List.mem_cons_of_mem e he')
    have hb1 : (e.2.action.getD "flag" == "remove") = false := by rw [hacthead]; rfl
    have hb2 : (e.2.action.getD "flag" == "winsorize") = false := by rw [hacthead]; rfl
    have hb3 : (e.2.action.getD "flag" == "flag") = true := by rw [hacthead]; rfl
    rw [List.foldl_cons]
    cases hcol : df.getCol e.1 with
    | none =>
      have hstep : outStep df (t, recs, tot) e = (t, recs, tot) := by
        simp only [outStep, hcol]
      rw [hstep]
      have H := ih t recs tot hacttail hidx hfreshtail hnd_tail
      refine ⟨H.1, ?_, ?_⟩
      · intro s hs
        rw [List.map_cons] at hs
        exact H.2.1 s (fun hmem => hs (List.mem_cons_of_mem _ hmem))
      · intro e' he' cells hcells hnum
        rcases List.mem_cons.mp he' with rfl | he'
        · rw [hcol] at hcells; exact absurd hcells (by simp)
        · exact H.2.2 e' he' cells hcells hnum
    | some orig =>
      by_cases hnum : isNumericCells orig = true
      · by_cases hcnt : 0 < (detectColumnOutliers orig e.2).count true
        · have hstep : outStep df (t, recs, tot) e =
              (t.setCol (e.1 ++ "_outlier_flag")
                 (t.idx.map (fun l => Cell.boolC (maskAt df.idx (detectColumnOutliers orig e.2) l))),
               recs ++ [⟨e.1, e.2.method.getD "iqr", e.2.action.getD "flag",
                 (detectColumnOutliers orig e.2).count true,
                 (((detectColumnOutliers orig e.2).count true : ℚ)) / (df.idx.length : ℚ) * 100⟩],
               tot + (detectColumnOutliers orig e.2).count true) := by
            simp only [outStep, hcol]
            rw [if_pos hnum, if_pos hcnt, if_neg (by rw [hb1]; exact Bool.false_ne_true),
              if_neg (by rw [hb2]; exact Bool.false_ne_true), if_pos hb3]
          rw [hstep]
          have hpreidx : (t.setCol (e.1 ++ "_outlier_flag")
              (t.idx.map (fun l => Cell.boolC (maskAt df.idx (detectColumnOutliers orig e.2) l)))).idx
              = df.idx := by rw [setCol_idx]; exact hidx
          have hprefresh : ∀ e' ∈ cfg,
              (t.setCol (e.1 ++ "_outlier_flag")
                (t.idx.map (fun l => Cell.boolC (maskAt df.idx (detectColumnOutliers orig e.2) l)))).hasCol
                (e'.1 ++ "_outlier_flag") = false := by
            intro e' he'
            have hne : (e'.1 ++ "_outlier_flag") ≠ (e.1 ++ "_outlier_flag") := by
              intro hEq
              exact hnotin (hEq ▸ List.mem_map_of_mem (fun e => e.1 ++ "_outlier_flag") he')
            unfold Table.hasCol
            rw [getCol_setCol_ne _ _ _ _ hne]
            exact hfreshtail e' he'
          have H := ih (t.setCol (e.1 ++ "_outlier_flag")
              (t.idx.map (fun l => Cell.boolC (maskAt df.idx (detectColumnOutliers orig e.2) l))))
            (recs ++ [⟨e.1, e.2.method.getD "iqr", e.2.action.getD "flag",
              (detectColumnOutliers orig e.2).count true,
              (((detectColumnOutliers orig e.2).count true : ℚ)) / (df.idx.length : ℚ) * 100⟩])
            (tot + (detectColumnOutliers orig e.2).count true)
            hacttail hpreidx hprefresh hnd_tail
          refine ⟨?_, ?_, ?_⟩
          · rw [H.1, setCol_idx]
          · intro s hs
            rw [List.map_cons] at hs
            have hsne : s ≠ e.1 ++ "_outlier_flag" := fun hEq => hs (hEq ▸ List.mem_cons_self _ _)
            rw [H.2.1 s (fun hmem => hs (List.mem_cons_of_mem _ hmem))]
            exact getCol_setCol_ne _ _ _ _ hsne
          · intro e' he' cells hcells hnum'
            rcases List.mem_cons.mp he' with rfl | he'
            · have hco : orig = cells := by rw [hcol] at hcells; simpa using hcells
              subst hco
              rw [if_pos hcnt]
              rw [H.2.1 _ hnotin, getCol_setCol_self, hidx]
            · exact H.2.2 e' he' cells hcells hnum'
        · have hstep : outStep df (t, recs, tot) e =
              (t, recs ++ [⟨e.1, e.2.method.getD "iqr", e.2.action.getD "flag",
                 (detectColumnOutliers orig e.2).count true,
                 (((detectColumnOutliers orig e.2).count true : ℚ)) / (df.idx.length : ℚ) * 100⟩],
               tot + (detectColumnOutliers orig e.2).count true) := by
            simp only [outStep, hcol]
            rw [if_pos hnum, if_neg hcnt]
          rw [hstep]
          have H := ih t (recs ++ [⟨e.1, e.2.method.getD "iqr", e.2.action.getD "flag",
              (detectColumnOutliers orig e.2).count true,
              (((detectColumnOutliers orig e.2).count true : ℚ)) / (df.idx.length : ℚ) * 100⟩])
            (tot + (detectColumnOutliers orig e.2).count true)
            hacttail hidx hfreshtail hnd_tail
          refine ⟨H.1, ?_, ?_⟩
          · intro s hs
            rw [List.map_cons] at hs
            exact H.2.1 s (fun hmem => hs (List.mem_cons_of_mem _ hmem))
          · intro e' he' cells hcells hnum'
            rcases List.mem_cons.mp he' with rfl | he'
            · have hco : orig = cells := by rw [hcol] at hcells; simpa using hcells
              subst hco
              rw [if_neg hcnt]
              rw [H.2.1 _ hnotin]
              exact hasCol_false_getCol t _ hfreshhead
            · exact H.2.2 e' he' cells hcells hnum'
      · have hstep : outStep df (t, recs, tot) e = (t, recs, tot) := by
          simp only [outStep, hcol]
          rw [if_neg hnum]
        rw [hstep]
        have H := ih t recs tot hacttail hidx hfreshtail hnd_tail
        refine ⟨H.1, ?_, ?_⟩
        · intro s hs
          rw [List.map_cons] at hs
          exact H.2.1 s (fun hmem => hs (List.mem_cons_of_mem _ hmem))
        · intro e' he' cells hcells hnum'
          rcases List.mem_cons.mp he' with rfl | he'
          · have hco : orig = cells := by rw [hcol] at hcells; simpa using hcells
            subst hco
            exact absurd hnum' hnum
          · exact H.2.2 e' he' cells hcells hnum'

/-- C6 (amended): for every configured numeric column present in the table,
processed by `detect_outliers` with action `flag` (flag names fresh and
distinct), WHEN the detection mask flags at least one row the returned table
contains the boolean indicator column `<column>_outlier_flag` equal to the
detection mask (aligned on the frame's labels, missing values never flagged);
when the mask flags no rows, no flag column is added at all (the source only
acts when `outlier_count > 0`, see `outliers_flag_c6_cex`).  In both cases no
rows are removed and no existing column is altered. -/
theorem outliers_flag_c6_amended (df : Table) (cfg : List (String × OutCfg))
    (hact : ∀ e ∈ cfg, e.2.action.getD "flag" = "flag")
    (hfresh : ∀ e ∈ cfg, df.hasCol (e.1 ++ "_outlier_flag") = false)
    (hnd : (cfg.map (fun e => e.1 ++ "_outlier_flag")).Nodup) :
    (detect_outliers df cfg).1.idx = df.idx ∧
    (∀ s, df.hasCol s = true → (detect_outliers df cfg).1.getCol s = df.getCol s) ∧
    (∀ e ∈ cfg, ∀ cells, df.getCol e.1 = some cells → isNumericCells cells = true →
      if 0 < (detectColumnOutliers cells e.2).count true then
        (detect_outliers df cfg).1.getCol (e.1 ++ "_outlier_flag")
          = some (df.idx.map (fun l => Cell.boolC (maskAt df.idx (detectColumnOutliers cells e.2) l)))
      else (detect_outliers df cfg).1.getCol (e.1 ++ "_outlier_flag") = none) := by
  have H := outFold_flag df cfg df [] 0 hact rfl hfresh hnd
  refine ⟨H.1, ?_, H.2.2⟩
  intro s hs
  apply H.2.1
  intro hmem
  obtain ⟨e, he, hEq⟩ := List.mem_map.mp hmem
  rw [← hEq, hfresh e he] at hs
  exact Bool.false_ne_true hs

unseal Rat.mul Rat.add Rat.sub Rat.inv in
/-- C6 witness: on `{x: [1, 2, 3, 100]}` with action `flag`, the flag column
is added and equals the detection mask, and the index is unchanged. -/
theorem outliers_flag_c6_witness :
    (detect_outliers c3df [("x", { action := some "flag" })]).1.idx = c3df.idx ∧
    (detect_outliers c3df [("x", { action := some "flag" })]).1.getCol ("x" ++ "_outlier_flag")
      = some (c3df.idx.map (fun l => Cell.boolC (maskAt c3df.idx
          (detectColumnOutliers [Cell.numC 1, Cell.numC 2, Cell.numC 3, Cell.numC 100]
            { action := some "flag" }) l))) := by
  have H := outliers_flag_c6_amended c3df [("x", { action := some "flag" })]
    (by decide) (by decide) (by decide)
  refine ⟨H.1, ?_⟩
  have H3 := H.2.2 ("x", { action := some "flag" }) (by decide)
    [Cell.numC 1, Cell.numC 2, Cell.numC 3, Cell.numC 100] rfl (by decide)
  rw [if_pos (by decide)] at H3
  exact H3

def c6df : Table := ⟨[0, 1, 2], [("x", [Cell.numC 1, Cell.numC 2, Cell.numC 3])]⟩

unseal Rat.mul Rat.add Rat.sub Rat.inv in
/-- C6 counterexample: the claim as stated fails on `{x: [1, 2, 3]}` with
action `flag`: the column is configured, numeric and present, the claim
demands a `x_outlier_flag` indicator column in the result, but no row is
flagged and the source adds the column only when the outlier count is
positive, so the returned table has no such column. -/
theorem outliers_flag_c6_cex :
    c6df.hasCol "x" = true ∧
    isNumericCells (c6df.getColD "x") = true ∧
    (detect_outliers c6df [("x", { action := some "flag" })]).1.hasCol ("x" ++ "_outlier_flag")
      = false := by
  decide

/-! ### Claim C5: range_check -/

theorem zipWith_or_map_false (f : Cell → Bool) (cells : List Cell) :
    List.zipWith (fun b c => b || f c) (cells.map (fun _ => false)) cells = cells.map f := by
  induction cells with
  | nil => rfl
  | cons x xs ih =>
    rw [List.map_cons, List.map_cons, List.zipWith_cons_cons, ih, Bool.false_or]

theorem zipWith_or_map (f g : Cell → Bool) (cells : List Cell) :
    List.zipWith (fun b c => b || g c) (cells.map f) cells = cells.map (fun c => f c || g c) := by
  induction cells with
  | nil => rfl
  | cons x xs ih =>
    rw [List.map_cons, List.map_cons, List.zipWith_cons_cons, ih]

theorem count_true_map (f : Cell → Bool) (cells : List Cell) :
    (cells.map f).count true = cells.countP f := by
  induction cells with
  | nil => rfl
  | cons x xs ih =>
    rw [List.map_cons, List.count_cons, List.countP_cons, ih]
    cases hf : f x <;> simp

/-- C5: for every `range_check` rule with optional bounds on a numeric column
present in the table, the per-row violation series counts exactly the rows
whose non-missing value is strictly below the lower bound or strictly above
the upper bound; rows with missing values never violate.  (The count reported
by `validate_data` for the rule is `violations.sum` of this series.) -/
theorem validation_range_c5 (df : Table) (col : String) (cells : List Cell)
    (omin omax : Option ℚ)
    (hc : df.getCol col = some cells) (hnum : isNumericCells cells = true) :
    (range_check df { column := some col, min_value := omin, max_value := omax }).count true
      = cells.countP (fun c => match c with
          | Cell.numC q =>
            (match omin with | some mn => decide (q < mn) | none => false) ||
            (match omax with | some mx => decide (q > mx) | none => false)
          | _ => false) := by
  have hrw : range_check df { column := some col, min_value := omin, max_value := omax }
      = (let v0 := cells.map (fun _ => false)
         let v1 := match omin with
           | some mn => List.zipWith (fun b c => b || cellLtB c mn) v0 cells
           | none => v0
         match omax with
         | some mx => List.zipWith (fun b c => b || cellGtB c mx) v1 cells
         | none => v1) := by
    simp only [range_check, hc]
  rw [hrw]
  cases omin with
  | none =>
    cases omax with
    | none =>
      simp only []
      rw [count_true_map]
      apply List.countP_congr
      intro c _
      cases c <;> simp [cellLtB, cellGtB]
    | some mx =>
      simp only []
      rw [zipWith_or_map_false, count_true_map]
      apply List.countP_congr
      intro c _
      cases c <;> simp [cellLtB, cellGtB]
  | some mn =>
    cases omax with
    | none =>
      simp only []
      rw [zipWith_or_map_false, count_true_map]
      apply List.countP_congr
      intro c _
      cases c <;> simp [cellLtB, cellGtB]
    | some mx =>
      simp only []
      rw [zipWith_or_map_false, zipWith_or_map, count_true_map]
      apply List.countP_congr
      intro c _
      cases c <;> simp [cellLtB, cellGtB]

def agedf : Table :=
  ⟨[0, 1, 2, 3, 4], [("age", [Cell.numC 25, Cell.numC 30, Cell.numC (-5), Cell.numC 150, Cell.numC 40])]⟩

unseal Rat.mul Rat.add Rat.sub Rat.inv in
/-- C5 witness: the spec's concrete scenario — `{age: [25, 30, -5, 150, 40]}`
with bounds [0, 120] yields exactly 2 violations (-5 and 150). -/
theorem validation_range_c5_witness :
    (range_check agedf { column := some "age", min_value := some 0, max_value := some 120 }).count true
      = [Cell.numC 25, Cell.numC 30, Cell.numC (-5), Cell.numC 150, Cell.numC 40].countP
          (fun c => match c with
            | Cell.numC q => decide (q < 0) || decide (q > 120)
            | _ => false) ∧
    (range_check agedf { column := some "age", min_value := some 0, max_value := some 120 }).count true
      = 2 := by
  have H := validation_range_c5 agedf "age"
    [Cell.numC 25, Cell.numC 30, Cell.numC (-5), Cell.numC 150, Cell.numC 40]
    (some 0) (some 120) rfl (by decide)
  exact ⟨H, by decide⟩

/-! ### Claim C8: format_check -/

/-- C8 (amended): for every `format_check` rule with a pattern on a string
column present in the table, a row is a violation if and only if its value is
non-missing and its string form does NOT match the pattern at the start of
the string (`re.match` prefix semantics, which is what `Series.str.match`
applies) — not a full match; missing values never violate.  The original
full-match claim fails whenever a proper prefix matches
(see `validation_format_c8_cex`). -/
theorem validation_format_c8_amended (df : Table) (col : String) (cells : List Cell)
    (pat : Regex) (hc : df.getCol col = some cells)
    (hstr : ∀ c ∈ cells, c = Cell.missingC ∨ ∃ s, c = Cell.strC s) :
    format_check df { column := some col, pattern := some pat }
      = cells.map (fun c => match c with
          | Cell.strC s => !(startMatch pat s)
          | _ => false) := by
  simp only [format_check, hc]
  apply List.map_congr_left
  intro c hcmem
  rcases hstr c hcmem with rfl | ⟨s, rfl⟩
  · rfl
  · rfl

def c8wdf : Table := ⟨[0, 1], [("s", [Cell.strC "abc", Cell.missingC])]⟩

/-- C8 witness: on the string column `{s: ["abc", NaN]}` with pattern `a`,
the violation series is the start-match complement and evaluates to
`[false, false]` ("abc" matches at the start, the missing row is exempt). -/
theorem validation_format_c8_witness :
    format_check c8wdf { column := some "s", pattern := some (Regex.chr 'a') }
      = [Cell.strC "abc", Cell.missingC].map (fun c => match c with
          | Cell.strC s => !(startMatch (Regex.chr 'a') s)
          | _ => false) ∧
    format_check c8wdf { column := some "s", pattern := some (Regex.chr 'a') }
      = [false, false] := by
  have H := validation_format_c8_amended c8wdf "s" [Cell.strC "abc", Cell.missingC]
    (Regex.chr 'a')
    rfl
    (by
      intro c hcm
      rcases List.mem_cons.mp hcm with rfl | hcm2
      · exact Or.inr ⟨"abc", rfl⟩
      · rcases List.mem_cons.mp hcm2 with rfl | hcm3
        · exact Or.inl rfl
        · exact absurd hcm3 (List.not_mem_nil c))
  exact ⟨H, by decide⟩

def c8df : Table := ⟨[0], [("s", [Cell.strC "ab"])]⟩

/-- Modelled from the spec (claim C8's wording): non-missing values must
FULLY match the pattern, non-matches violate.  Used only to exhibit the
divergence from the source's prefix-match behaviour. -/
def formatCheckClaim (cells : List Cell) (pat : Regex) : List Bool :=
  cells.map (fun c => match c with
    | Cell.strC s => !(fullMatch pat s)
    | _ => false)

/-- C8 counterexample: on the value "ab" with pattern `a`, the string does
not fully match (so the claim marks the row as a violation), but
`Series.str.match` succeeds at the start of the string and the source reports
no violation. -/
theorem validation_format_c8_cex :
    format_check c8df { column := some "s", pattern := some (Regex.chr 'a') } = [false] ∧
    formatCheckClaim [Cell.strC "ab"] (Regex.chr 'a') = [true] := by
  decide

/-! ### Claim C4: logical_check -/

/-- C4 (amended): for every `logical_check` rule with a non-empty expression,
the per-row violation series marks exactly the rows where the expression
evaluates to false; when evaluating the expression raises an error (pandas
`df.eval` fails, e.g. on an undefined column), the rule yields NO violations —
an all-false series — for every row (source lines 198-200), not violations as
the claim states (see `validation_logical_c4_cex`). -/
theorem validation_logical_c4_amended (df : Table) (e : BExpr) :
    (∀ res, evalB df e = Except.ok res →
      ∀ i b, (logical_check df { expression := some e }).get? i = some b →
        (b = true ↔ res.get? i = some false)) ∧
    (∀ err : Unit, evalB df e = Except.error err →
      ∀ b ∈ logical_check df { expression := some e }, b = false) := by
  constructor
  · intro res hres i b hb
    simp only [logical_check, hres] at hb
    rw [List.get?_map] at hb
    cases hres2 : res.get? i with
    | none => rw [hres2] at hb; simp at hb
    | some rb =>
      rw [hres2] at hb
      simp only [Option.map_some', Option.some.injEq] at hb
      subst hb
      cases rb <;> simp
  · intro err herr b hbmem
    simp only [logical_check, herr, allFalseRows] at hbmem
    obtain ⟨l, _, hl⟩ := List.mem_map.mp hbmem
    exact hl.symm

def c4wdf : Table := ⟨[0, 1], [("a", [Cell.numC 1, Cell.numC 2])]⟩
def c4wexpr : BExpr := .cmp .gt (.col "a") (.lit 1)

/-- C4 witness: on `{a: [1, 2]}` with expression `a > 1`, the expression
evaluates without error to `[false, true]` and row 0 — where the expression
is false — is marked as a violation. -/
theorem validation_logical_c4_witness :
    (logical_check c4wdf { expression := some c4wexpr }).get? 0 = some true ∧
    (true = true ↔ ([false, true] : List Bool).get? 0 = some false) :=
  ⟨by decide,
   (validation_logical_c4_amended c4wdf c4wexpr).1 [false, true] (by decide) 0 true (by decide)⟩

def c4df : Table := ⟨[0], [("a", [Cell.numC 1])]⟩
def c4expr : BExpr := .cmp .gt (.col "b") (.lit 0)

/-- Modelled from the spec (claim C4's wording): rows where the expression is
false are violations AND rows for which evaluation raises an error are also
treated as violations, so a whole-expression error marks every row.  Used
only to exhibit the divergence from the source's error handling. -/
def logicalCheckClaim (df : Table) (e : BExpr) : List Bool :=
  match evalB df e with
  | .ok res => res.map (fun b => !b)
  | .error _ => df.idx.map (fun _ => true)

/-- C4 counterexample: on `{a: [1]}` with expression `b > 0` (column `b`
undefined), evaluation raises, the claim marks the row as a violation, but
the source catches the error and reports no violations. -/
theorem validation_logical_c4_cex :
    evalB c4df c4expr = Except.error () ∧
    logical_check c4df { expression := some c4expr } = [false] ∧
    logicalCheckClaim c4df c4expr = [true] := by
  decide

/-! ### Claim C9: the engines never mutate the caller's frame -/

theorem mem_le_foldr_max (r : Nat) (l : List Nat) (h : r ∈ l) :
    r ≤ l.foldr (fun a b => max a b) 0 := by
  induction l with
  | nil => exact absurd h (List.not_mem_nil r)
  | cons x xs ih =>
    rcases List.mem_cons.mp h with rfl | h2
    · exact le_max_left _ _
    · exact le_trans (ih h2) (le_max_right _ _)

theorem lt_freshRef_of_mem (σ : Store) (r : Nat) (h : r ∈ σ.map Prod.fst) :
    r < freshRef σ :=
  Nat.lt_succ_of_le (mem_le_foldr_max r (σ.map Prod.fst) h)

theorem getT_set_ne (σ : Store) (r r' : Nat) (t : Table) (h : r ≠ r') :
    (σ.setT r' t).getT r = σ.getT r := by
  unfold Store.setT Store.getT
  rw [List.find?_cons_of_neg]
  simp [Ne.symm h]

/-- C9: none of the four engine calls mutates the caller's table: each of
`impute_missing_values`, `detect_outliers` and `validate_data` copies the
frame first (`df.copy()`) and every in-place write of the source targets the
copy, which the store embedding records by allocating the result at a fresh
reference; `apply_weights` only reads the frame (copying the weight Series)
and returns an estimates record, leaving the store untouched. -/
theorem engines_preserve_input_c9 (σ : Store) (r : Nat) (hr : r ∈ σ.map Prod.fst)
    (icfg : List (String × String)) (ocfg : List (String × OutCfg)) (rules : List VRule)
    (sqrtF : ℚ → ℚ) (tppf : ℚ → ℚ → ℚ) (wcfg : WConfig) :
    (imputeOnStore σ r icfg).1.getT r = σ.getT r ∧
    (outliersOnStore σ r ocfg).1.getT r = σ.getT r ∧
    (validateOnStore σ r rules).1.getT r = σ.getT r ∧
    (weightsOnStore sqrtF tppf σ r wcfg).1.getT r = σ.getT r := by
  have hne : r ≠ freshRef σ := Nat.ne_of_lt (lt_freshRef_of_mem σ r hr)
  exact ⟨getT_set_ne σ r (freshRef σ) _ hne, getT_set_ne σ r (freshRef σ) _ hne,
    getT_set_ne σ r (freshRef σ) _ hne, rfl⟩

/-- C9 witness: a one-table store with empty configurations — every engine
call leaves the stored caller table unchanged. -/
theorem engines_preserve_input_c9_witness :
    (imputeOnStore [(0, c6df)] 0 []).1.getT 0 = Store.getT [(0, c6df)] 0 ∧
    (outliersOnStore [(0, c6df)] 0 []).1.getT 0 = Store.getT [(0, c6df)] 0 ∧
    (validateOnStore [(0, c6df)] 0 []).1.getT 0 = Store.getT [(0, c6df)] 0 ∧
    (weightsOnStore (fun q => q) (fun _ _ => 2) [(0, c6df)] 0 {}).1.getT 0
      = Store.getT [(0, c6df)] 0 :=
  engines_preserve_input_c9 [(0, c6df)] 0 (by decide) [] [] [] (fun q => q) (fun _ _ => 2) {}

/-! ### Claim C2: confidence-interval structure of every returned record -/

/-- The confidence-interval invariant of an estimate record: the interval is
`estimate ± margin_of_error` and the margin is the Student's t critical value
at the record's confidence level and the given degrees of freedom times the
standard error (NaN fields propagate through the Option arithmetic). -/
def estRecordCI (tppf : ℚ → ℚ → ℚ) (dof : ℚ) (r : Estimate) : Prop :=
  r.ci_lower = osub r.estimate r.margin_of_error ∧
  r.ci_upper = oadd r.estimate r.margin_of_error ∧
  r.margin_of_error
    = omul (tppf (1 - (1 - r.confidence_level.getD 0) / 2) dof) r.standard_error

/-- All statistical fields of the record are the NaN sentinel. -/
def estRecordNaN (r : Estimate) : Prop :=
  r.estimate = none ∧ r.standard_error = none ∧ r.margin_of_error = none ∧
  r.ci_lower = none ∧ r.ci_upper = none

theorem calcWeighted_invariant (sqrtF : ℚ → ℚ) (tppf : ℚ → ℚ → ℚ)
    (vs ws : List (Option ℚ)) (stat : String) (cl : ℚ) (rec : Estimate)
    (h : calcWeightedEstimate sqrtF tppf vs ws stat cl = .ok rec) :
    (0 < rec.sample_size →
      estRecordCI tppf (rec.effective_sample_size.getD 0 - 1) rec) ∧
    (rec.sample_size = 0 → estRecordNaN rec) := by
  unfold calcWeightedEstimate at h
  by_cases hn : (validPairs vs ws).length = 0
  · rw [if_pos hn] at h
    have hrec : rec = zeroWeightedRecord := by
      have := Except.ok.inj h
      exact this.symm
    subst hrec
    exact ⟨fun hp => absurd hp (by simp [zeroWeightedRecord]),
      fun _ => ⟨rfl, rfl, rfl, rfl, rfl⟩⟩
  · rw [if_neg hn] at h
    by_cases h1 : (stat == "mean") = true
    · rw [if_pos h1] at h
      by_cases hw : ((validPairs vs ws).map Prod.snd).sum = 0
      · rw [if_pos hw] at h
        exact absurd h (by simp)
      · rw [if_neg hw] at h
        have hrec := (Except.ok.inj h).symm
        subst hrec
        refine ⟨fun _ => ⟨rfl, rfl, ?_⟩, fun h0 => absurd (by simpa [finishWeighted] using h0) hn⟩
        simp [finishWeighted, omul]
    · rw [if_neg h1] at h
      by_cases h2 : (stat == "total") = true
      · rw [if_pos h2] at h
        by_cases hw : ((validPairs vs ws).map Prod.snd).sum = 0
        · rw [if_pos hw] at h
          exact absurd h (by simp)
        · rw [if_neg hw] at h
          have hrec := (Except.ok.inj h).symm
          subst hrec
          refine ⟨fun _ => ⟨rfl, rfl, ?_⟩, fun h0 => absurd (by simpa [finishWeighted] using h0) hn⟩
          simp [finishWeighted, omul]
      · rw [if_neg h2] at h
        by_cases h3 : (stat == "proportion") = true
        · rw [if_pos h3] at h
          by_cases hw : ((validPairs vs ws).map Prod.snd).sum = 0
          · rw [if_pos hw] at h
            exact absurd h (by simp)
          · rw [if_neg hw] at h
            have hrec := (Except.ok.inj h).symm
            subst hrec
            refine ⟨fun _ => ⟨rfl, rfl, ?_⟩, fun h0 => absurd (by simpa [finishWeighted] using h0) hn⟩
            simp [finishWeighted, omul]
        · rw [if_neg h3] at h
          have hrec := (Except.ok.inj h).symm
          subst hrec
          exact ⟨fun _ => ⟨rfl, rfl, rfl⟩, fun h0 => absurd h0 (by simpa using hn)⟩

theorem calcUnweighted_invariant (sqrtF : ℚ → ℚ) (tppf : ℚ → ℚ → ℚ)
    (vs : List (Option ℚ)) (stat : String) (cl : ℚ) (rec : Estimate)
    (h : calcUnweightedEstimate sqrtF tppf vs stat cl = rec) :
    (0 < rec.sample_size → estRecordCI tppf ((rec.sample_size : ℚ) - 1) rec) ∧
    (rec.sample_size = 0 → estRecordNaN rec) := by
  unfold calcUnweightedEstimate at h
  by_cases hn : (vs.filterMap id).length = 0
  · rw [if_pos hn] at h
    subst h
    exact ⟨fun hp => absurd hp (by simp [zeroUnweightedRecord]),
      fun _ => ⟨rfl, rfl, rfl, rfl, rfl⟩⟩
  · rw [if_neg hn] at h
    by_cases h1 : (stat == "mean") = true
    · rw [if_pos h1] at h
      subst h
      refine ⟨fun _ => ⟨rfl, rfl, ?_⟩, fun h0 => absurd (by simpa [finishUnweighted] using h0) hn⟩
      simp [finishUnweighted]
    · rw [if_neg h1] at h
      by_cases h2 : (stat == "total") = true
      · rw [if_pos h2] at h
        subst h
        refine ⟨fun _ => ⟨rfl, rfl, ?_⟩, fun h0 => absurd (by simpa [finishUnweighted] using h0) hn⟩
        simp [finishUnweighted]
      · rw [if_neg h2] at h
        by_cases h3 : (stat == "proportion") = true
        · rw [if_pos h3] at h
          subst h
          refine ⟨fun _ => ⟨rfl, rfl, ?_⟩, fun h0 => absurd (by simpa [finishUnweighted] using h0) hn⟩
          simp [finishUnweighted]
        · rw [if_neg h3] at h
          subst h
          exact ⟨fun _ => ⟨rfl, rfl, rfl⟩, fun h0 => absurd h0 (by simpa using hn)⟩

theorem insertRec_mem {l : List (String × Estimate)} {k : String} {v : Estimate}
    {p : String × Estimate} (h : p ∈ insertRec l k v) : p.2 = v ∨ p ∈ l := by
  unfold insertRec at h
  by_cases ha : l.any (fun p => p.1 == k) = true
  · rw [if_pos ha] at h
    obtain ⟨q, hq, hpq⟩ := List.mem_map.mp h
    by_cases hqk : (q.1 == k) = true
    · rw [if_pos hqk] at hpq
      exact Or.inl (by rw [← hpq])
    · rw [if_neg hqk] at hpq
      exact Or.inr (hpq ▸ hq)
  · rw [if_neg ha] at h
    rcases List.mem_append.mp h with h2 | h2
    · exact Or.inr h2
    · rcases List.mem_cons.mp h2 with rfl | h3
      · exact Or.inl rfl
      · exact absurd h3 (List.not_mem_nil p)

theorem estFold_mem (sqrtF : ℚ → ℚ) (tppf : ℚ → ℚ → ℚ) (df : Table) (ws : List ℚ)
    (P Q : Estimate → Prop)
    (hP : ∀ vs stat cl rec,
      calcWeightedEstimate sqrtF tppf vs (ws.map some) stat cl = .ok rec → P rec)
    (hQ : ∀ vs stat cl, Q (calcUnweightedEstimate sqrtF tppf vs stat cl)) :
    ∀ (ecs : List EstCfg) (wl ul : List (String × Estimate))
      (r : List (String × Estimate) × List (String × Estimate)),
      estFold sqrtF tppf df ws ecs wl ul = .ok r →
      (∀ p ∈ wl, P p.2) → (∀ p ∈ ul, Q p.2) →
      (∀ p ∈ r.1, P p.2) ∧ (∀ p ∈ r.2, Q p.2) := by
  intro ecs
  induction ecs with
  | nil =>
    intro wl ul r h hw hu
    have heq : (wl, ul) = r := Except.ok.inj h
    subst heq
    exact ⟨hw, hu⟩
  | cons ec rest ih =>
    intro wl ul r h hw hu
    cases hcol : df.getCol ec.varname with
    | none =>
      simp only [estFold, hcol] at h
      exact ih _ _ _ h hw hu
    | some cells =>
      simp only [estFold, hcol] at h
      cases hcw : calcWeightedEstimate sqrtF tppf (cells.map cellNumOpt)
          (ws.map some) ec.statistic ec.confidence_level with
      | error e =>
        simp only [hcw] at h
        exact Except.noConfusion h
      | ok wres =>
        simp only [hcw] at h
        refine ih _ _ _ h ?_ ?_
        · intro p hp
          rcases insertRec_mem hp with hv | hp2
          · rw [hv]; exact hP _ _ _ _ hcw
          · exact hw p hp2
        · intro p hp
          rcases insertRec_mem hp with hv | hp2
          · rw [hv]; exact hQ _ _ _
          · exact hu p hp2

theorem estFoldU_mem (sqrtF : ℚ → ℚ) (tppf : ℚ → ℚ → ℚ) (df : Table)
    (Q : Estimate → Prop)
    (hQ : ∀ vs stat cl, Q (calcUnweightedEstimate sqrtF tppf vs stat cl)) :
    ∀ (ecs : List EstCfg) (ul : List (String × Estimate)),
      (∀ p ∈ ul, Q p.2) → ∀ p ∈ estFoldU sqrtF tppf df ecs ul, Q p.2 := by
  intro ecs
  induction ecs with
  | nil => intro ul hu p hp; exact hu p hp
  | cons ec rest ih =>
    intro ul hu p hp
    cases hcol : df.getCol ec.varname with
    | none =>
      simp only [estFoldU, hcol] at hp
      exact ih _ hu p hp
    | some cells =>
      simp only [estFoldU, hcol] at hp
      refine ih _ ?_ p hp
      intro q hq
      rcases insertRec_mem hq with hv | hq2
      · rw [hv]; exact hQ _ _ _
      · exact hu q hq2

/-- C2: for every estimate record returned by `apply_weights` —
weighted or unweighted, with the weight column present or absent — a record
with positive sample size satisfies `confidence_interval =
(estimate - margin_of_error, estimate + margin_of_error)` and
`margin_of_error = t_critical(confidence_level, dof) × standard_error`
(degrees of freedom `effective_sample_size - 1` for weighted records and
`sample_size - 1` for unweighted ones, NaN sentinels propagating), and a
record produced from zero valid rows (both variable and weight present) has
`sample_size = 0` and every statistical field equal to the NaN sentinel. -/
theorem weights_ci_c2 (sqrtF : ℚ → ℚ) (tppf : ℚ → ℚ → ℚ) (df : Table) (cfg : WConfig)
    (res : WResults) (h : apply_weights sqrtF tppf df cfg = .ok res) :
    (∀ p ∈ res.weighted.getD [],
      (0 < p.2.sample_size →
        estRecordCI tppf (p.2.effective_sample_size.getD 0 - 1) p.2) ∧
      (p.2.sample_size = 0 → estRecordNaN p.2)) ∧
    (∀ p ∈ res.unweighted,
      (0 < p.2.sample_size → estRecordCI tppf ((p.2.sample_size : ℚ) - 1) p.2) ∧
      (p.2.sample_size = 0 → estRecordNaN p.2)) := by
  have hQ : ∀ vs stat cl,
      (fun rec => (0 < rec.sample_size → estRecordCI tppf ((rec.sample_size : ℚ) - 1) rec) ∧
        (rec.sample_size = 0 → estRecordNaN rec))
        (calcUnweightedEstimate sqrtF tppf vs stat cl) :=
    fun vs stat cl => calcUnweighted_invariant sqrtF tppf vs stat cl _ rfl
  cases hwc : cfg.weight_column with
  | none =>
    simp only [apply_weights, hwc] at h
    have hres := Except.ok.inj h
    subst hres
    refine ⟨by simp, ?_⟩
    exact estFoldU_mem sqrtF tppf df
      (fun rec => (0 < rec.sample_size → estRecordCI tppf ((rec.sample_size : ℚ) - 1) rec) ∧
        (rec.sample_size = 0 → estRecordNaN rec)) hQ cfg.estimates [] (by simp)
  | some wc =>
    cases hcol : df.getCol wc with
    | none =>
      simp only [apply_weights, hwc, hcol] at h
      have hres := Except.ok.inj h
      subst hres
      refine ⟨by simp, ?_⟩
      exact estFoldU_mem sqrtF tppf df
        (fun rec => (0 < rec.sample_size → estRecordCI tppf ((rec.sample_size : ℚ) - 1) rec) ∧
          (rec.sample_size = 0 → estRecordNaN rec)) hQ cfg.estimates [] (by simp)
    | some wcells =>
      simp only [apply_weights, hwc, hcol] at h
      cases hfold : estFold sqrtF tppf df (cleanWeights (wcells.map cellNumOpt))
          cfg.estimates [] [] with
      | error e =>
        simp only [hfold] at h
        exact Except.noConfusion h
      | ok r =>
        simp only [hfold] at h
        have hres := Except.ok.inj h
        subst hres
        have H := estFold_mem sqrtF tppf df (cleanWeights (wcells.map cellNumOpt))
          (fun rec => (0 < rec.sample_size →
            estRecordCI tppf (rec.effective_sample_size.getD 0 - 1) rec) ∧
            (rec.sample_size = 0 → estRecordNaN rec))
          (fun rec => (0 < rec.sample_size →
            estRecordCI tppf ((rec.sample_size : ℚ) - 1) rec) ∧
            (rec.sample_size = 0 → estRecordNaN rec))
          (fun vs stat cl rec hok => calcWeighted_invariant sqrtF tppf vs _ stat cl rec hok)
          hQ cfg.estimates [] [] r hfold (by simp) (by simp)
        exact ⟨fun p hp => H.1 p (by simpa using hp), fun p hp => H.2 p hp⟩

def c2wdf : Table :=
  ⟨[0, 1, 2], [("w", [Cell.numC 1, Cell.numC 1, Cell.numC 1]),
               ("v", [Cell.numC 2, Cell.numC 4, Cell.missingC])]⟩

def c2wcfg : WConfig := ⟨some "w", [⟨"v", "mean", 95/100⟩]⟩

def c2recW : Estimate :=
  ⟨some 3, some (1/2), some 1, some 2, some 4, some (19/20), 2, some 2⟩

def c2recU : Estimate :=
  ⟨some 3, some 1, some 2, some 1, some 5, some (19/20), 2, none⟩

def c2res : WResults :=
  ⟨some [("v_mean", c2recW)], [("v_mean", c2recU)],
   some ⟨3, some 1, some 1, some 1, some 1, some 0, 3, 3⟩⟩

unseal Rat.mul Rat.add Rat.sub Rat.inv in
/-- C2 witness: on `{w: [1,1,1], v: [2,4,NaN]}` with a mean estimate
(`sqrtF` the identity, `tppf` constantly 2), `apply_weights` returns the
concrete records above, and the weighted record's interval is
`estimate ± margin_of_error`. -/
theorem weights_ci_c2_witness :
    c2recW.ci_lower = osub c2recW.estimate c2recW.margin_of_error ∧
    c2recW.ci_upper = oadd c2recW.estimate c2recW.margin_of_error := by
  have H := weights_ci_c2 (fun q => q) (fun _ _ => 2) c2wdf c2wcfg c2res (by decide)
  have h2 := (H.1 ("v_mean", c2recW) (by decide)).1 (by decide)
  exact ⟨h2.1, h2.2.1⟩

/-! ### Claim C7: unit weights give the unweighted mean -/

theorem validPairs_ones (vs : List (Option ℚ)) :
    validPairs vs (List.replicate vs.length (some (1:ℚ)))
      = (vs.filterMap id).map (fun x => (x, (1:ℚ))) := by
  induction vs with
  | nil => rfl
  | cons v vsr ih =>
    cases v with
    | none =>
      simp only [List.length_cons, List.replicate_succ, validPairs, List.zip_cons_cons,
        List.filterMap_cons, List.filterMap_cons_none] at ih ⊢
      exact ih
    | some x =>
      simp only [List.length_cons, List.replicate_succ, validPairs, List.zip_cons_cons,
        List.filterMap_cons, List.map_cons, id_eq] at ih ⊢
      rw [ih]

theorem sum_pairs_mul_one (xs : List ℚ) :
    ((xs.map (fun x => (x, (1:ℚ)))).map (fun p => p.1 * p.2)).sum = xs.sum := by
  induction xs with
  | nil => rfl
  | cons x xsr ih =>
    rw [List.map_cons, List.map_cons, List.sum_cons, List.sum_cons, ih, mul_one]

theorem sum_pairs_snd_one (xs : List ℚ) :
    ((xs.map (fun x => (x, (1:ℚ)))).map Prod.snd).sum = (xs.length : ℚ) := by
  induction xs with
  | nil => rfl
  | cons x xsr ih =>
    rw [List.map_cons, List.map_cons, List.sum_cons, ih, List.length_cons]
    push_cast
    ring

theorem sum_pairs_snd_sq_one (xs : List ℚ) :
    (((xs.map (fun x => (x, (1:ℚ)))).map Prod.snd).map (fun w => w ^ 2)).sum
      = (xs.length : ℚ) := by
  induction xs with
  | nil => rfl
  | cons x xsr ih =>
    rw [List.map_cons, List.map_cons, List.map_cons, List.sum_cons, ih, List.length_cons]
    push_cast
    ring

theorem calcWeighted_mean_ones (sqrtF : ℚ → ℚ) (tppf : ℚ → ℚ → ℚ)
    (vs : List (Option ℚ)) (cl : ℚ) (hpos : 0 < (vs.filterMap id).length) :
    ∃ rec, calcWeightedEstimate sqrtF tppf vs (List.replicate vs.length (some 1)) "mean" cl
        = .ok rec ∧
      rec.estimate = some ((vs.filterMap id).sum / ((vs.filterMap id).length : ℚ)) ∧
      rec.effective_sample_size = some (((vs.filterMap id).length : ℚ)) ∧
      rec.sample_size = (vs.filterMap id).length := by
  have hQne : ((vs.filterMap id).length : ℚ) ≠ 0 :=
    Nat.cast_ne_zero.mpr (Nat.pos_iff_ne_zero.mp hpos)
  unfold calcWeightedEstimate
  rw [validPairs_ones]
  have hlen : ((vs.filterMap id).map (fun x => (x, (1:ℚ)))).length = (vs.filterMap id).length := by
    simp
  rw [if_neg (by rw [hlen]; omega)]
  rw [if_pos (by rfl)]
  rw [if_neg (by rw [sum_pairs_snd_one]; exact hQne)]
  refine ⟨_, rfl, ?_, ?_, ?_⟩
  · simp only [finishWeighted]
    rw [sum_pairs_mul_one, sum_pairs_snd_one]
  · simp only [finishWeighted]
    rw [sum_pairs_snd_sq_one, hlen]
    congr 1
    rw [sq, mul_div_assoc, div_self hQne, mul_one]
  · simp only [finishWeighted]
    rw [hlen]

theorem calcUnweighted_mean_fields (sqrtF : ℚ → ℚ) (tppf : ℚ → ℚ → ℚ)
    (vs : List (Option ℚ)) (cl : ℚ) (hpos : 0 < (vs.filterMap id).length) :
    (calcUnweightedEstimate sqrtF tppf vs "mean" cl).estimate
      = some ((vs.filterMap id).sum / ((vs.filterMap id).length : ℚ)) ∧
    (calcUnweightedEstimate sqrtF tppf vs "mean" cl).sample_size
      = (vs.filterMap id).length := by
  unfold calcUnweightedEstimate
  rw [if_neg (by omega), if_pos (by rfl)]
  exact ⟨rfl, rfl⟩

/-- C7: for every numeric variable with at least one valid row, when every
weight in the weight column equals 1 the weighted mean estimate returned by
`apply_weights` equals the unweighted mean estimate for the same variable
(exactly, in the rational model), and the effective sample size equals the
valid sample size n, so the weighted (`n_eff - 1`) and unweighted (`n - 1`)
degrees of freedom coincide. -/
theorem weights_unit_c7 (sqrtF : ℚ → ℚ) (tppf : ℚ → ℚ → ℚ) (df : Table)
    (wc v : String) (cl : ℚ) (wcells vcells : List Cell)
    (hw : df.getCol wc = some wcells)
    (hall : ∀ c ∈ wcells, c = Cell.numC 1)
    (hv : df.getCol v = some vcells)
    (hnum : isNumericCells vcells = true)
    (hlen : vcells.length = wcells.length)
    (hpos : 0 < (numsOf vcells).length) :
    ∃ wrec urec wst,
      apply_weights sqrtF tppf df ⟨some wc, [⟨v, "mean", cl⟩]⟩
        = .ok ⟨some [(v ++ "_" ++ "mean", wrec)], [(v ++ "_" ++ "mean", urec)], some wst⟩ ∧
      wrec.estimate = urec.estimate ∧
      wrec.effective_sample_size = some ((numsOf vcells).length : ℚ) ∧
      wrec.sample_size = (numsOf vcells).length ∧
      urec.sample_size = (numsOf vcells).length := by
  have hfm : (vcells.map cellNumOpt).filterMap id = numsOf vcells := by
    rw [List.filterMap_map]
    rfl
  have hpos' : 0 < ((vcells.map cellNumOpt).filterMap id).length := by
    rw [hfm]; exact hpos
  have h1 : cleanWeights (wcells.map cellNumOpt) = List.replicate wcells.length 1 := by
    apply List.eq_replicate.mpr
    constructor
    · simp [cleanWeights]
    · intro b hb
      unfold cleanWeights at hb
      rw [List.map_map] at hb
      obtain ⟨c, hc, hbc⟩ := List.mem_map.mp hb
      rw [hall c hc] at hbc
      simp only [Function.comp, cellNumOpt, Option.getD_some] at hbc
      rw [← hbc]
      exact max_eq_left (by norm_num)
  have hws2 : (cleanWeights (wcells.map cellNumOpt)).map some
      = List.replicate (vcells.map cellNumOpt).length (some (1:ℚ)) := by
    rw [h1, List.map_replicate]
    congr 1
    simp [hlen]
  obtain ⟨wrec, hwrec, hest, heff, hn⟩ :=
    calcWeighted_mean_ones sqrtF tppf (vcells.map cellNumOpt) cl hpos'
  have hu := calcUnweighted_mean_fields sqrtF tppf (vcells.map cellNumOpt) cl hpos'
  refine ⟨wrec, calcUnweightedEstimate sqrtF tppf (vcells.map cellNumOpt) "mean" cl,
    weightStatistics sqrtF (cleanWeights (wcells.map cellNumOpt)), ?_, ?_, ?_, ?_, ?_⟩
  · simp only [apply_weights, hw, estFold, hv, hws2, hwrec, insertRec, List.any_nil,
      Bool.false_eq_true, if_false, List.nil_append]
  · rw [hest, hu.1]
  · rw [heff, hfm]
  · rw [hn, hfm]
  · rw [hu.2, hfm]

unseal Rat.mul Rat.add Rat.sub Rat.inv in
/-- C7 witness: on `{w: [1,1,1], v: [2,4,NaN]}` the weighted and unweighted
mean records agree on the estimate and the effective sample size equals the
valid sample size 2. -/
theorem weights_unit_c7_witness :
    c2recW.estimate = c2recU.estimate ∧ c2recW.effective_sample_size = some 2 := by
  obtain ⟨wrec, urec, wst, happ, he, heff, hnw, hnu⟩ :=
    weights_unit_c7 (fun q => q) (fun _ _ => 2) c2wdf "w" "v" (95/100)
      [Cell.numC 1, Cell.numC 1, Cell.numC 1] [Cell.numC 2, Cell.numC 4, Cell.missingC]
      rfl (by decide) rfl (by decide) (by decide) (by decide)
  have h2 : apply_weights (fun q => q) (fun _ _ => 2) c2wdf
      ⟨some "w", [⟨"v", "mean", 95/100⟩]⟩ = .ok c2res := by decide
  rw [happ] at h2
  have h3 := Except.ok.inj h2
  have hW : wrec = c2recW := by
    have h4 := congrArg WResults.weighted h3
    simp only [c2res, Option.some.injEq, List.cons.injEq, Prod.mk.injEq, and_true] at h4
    exact h4.2
  have hU : urec = c2recU := by
    have h4 := congrArg WResults.unweighted h3
    simp only [c2res, List.cons.injEq, Prod.mk.injEq, and_true] at h4
    exact h4.2
  rw [hW, hU] at he
  rw [hW] at heff
  refine ⟨he, ?_⟩
  rw [heff]
  have hl2 : (numsOf [Cell.numC 2, Cell.numC 4, Cell.missingC]).length = 2 := by decide
  rw [hl2]
  norm_num

/-! ### Claim C10: unsupported statistics keep the sample size -/

theorem validPairs_map_some_length (vs : List (Option ℚ)) (ws : List ℚ)
    (h : ws.length = vs.length) :
    (validPairs vs (ws.map some)).length = (vs.filterMap id).length := by
  induction vs generalizing ws with
  | nil => simp [validPairs]
  | cons v vsr ih =>
    cases ws with
    | nil => simp at h
    | cons w wsr =>
      have hlen : wsr.length = vsr.length := by
        rw [List.length_cons, List.length_cons] at h
        omega
      cases v with
      | none =>
        simp only [validPairs, List.map_cons, List.zip_cons_cons, List.filterMap_cons,
          id_eq] at ih ⊢
        exact ih wsr hlen
      | some x =>
        simp only [validPairs, List.map_cons, List.zip_cons_cons, List.filterMap_cons,
          id_eq, List.length_cons] at ih ⊢
        rw [ih wsr hlen]

theorem calcWeighted_unsupported (sqrtF : ℚ → ℚ) (tppf : ℚ → ℚ → ℚ)
    (vs ws : List (Option ℚ)) (stat : String) (cl : ℚ)
    (h1 : (stat == "mean") = false) (h2 : (stat == "total") = false)
    (h3 : (stat == "proportion") = false) (hn : (validPairs vs ws).length ≠ 0) :
    ∃ rec, calcWeightedEstimate sqrtF tppf vs ws stat cl = .ok rec ∧
      estRecordNaN rec ∧ rec.sample_size = (validPairs vs ws).length := by
  unfold calcWeightedEstimate
  rw [if_neg hn, if_neg (by simp [h1]), if_neg (by simp [h2]), if_neg (by simp [h3])]
  exact ⟨_, rfl, ⟨rfl, rfl, rfl, rfl, rfl⟩, rfl⟩

theorem calcUnweighted_unsupported (sqrtF : ℚ → ℚ) (tppf : ℚ → ℚ → ℚ)
    (vs : List (Option ℚ)) (stat : String) (cl : ℚ)
    (h1 : (stat == "mean") = false) (h2 : (stat == "total") = false)
    (h3 : (stat == "proportion") = false) (hn : (vs.filterMap id).length ≠ 0) :
    estRecordNaN (calcUnweightedEstimate sqrtF tppf vs stat cl) ∧
    (calcUnweightedEstimate sqrtF tppf vs stat cl).sample_size
      = (vs.filterMap id).length := by
  unfold calcUnweightedEstimate
  rw [if_neg hn, if_neg (by simp [h1]), if_neg (by simp [h2]), if_neg (by simp [h3])]
  exact ⟨⟨rfl, rfl, rfl, rfl, rfl⟩, rfl⟩

/-- C10: for every estimate config whose statistic is none of mean, total or
proportion, applied over a weight column to a numeric variable with n ≥ 1
valid rows, both the weighted and the unweighted record returned by
`apply_weights` carry the NaN sentinel in estimate, standard error, margin of
error and both interval bounds, yet report `sample_size = n` (not 0). -/
theorem weights_unsupported_c10 (sqrtF : ℚ → ℚ) (tppf : ℚ → ℚ → ℚ) (df : Table)
    (wc v s : String) (cl : ℚ) (wcells vcells : List Cell)
    (hw : df.getCol wc = some wcells)
    (hwnum : isNumericCells wcells = true)
    (hv : df.getCol v = some vcells)
    (hvnum : isNumericCells vcells = true)
    (hs1 : (s == "mean") = false) (hs2 : (s == "total") = false)
    (hs3 : (s == "proportion") = false)
    (hlen : vcells.length = wcells.length)
    (hpos : 0 < (numsOf vcells).length) :
    ∃ wrec urec wst,
      apply_weights sqrtF tppf df ⟨some wc, [⟨v, s, cl⟩]⟩
        = .ok ⟨some [(v ++ "_" ++ s, wrec)], [(v ++ "_" ++ s, urec)], some wst⟩ ∧
      estRecordNaN wrec ∧ wrec.sample_size = (numsOf vcells).length ∧
      estRecordNaN urec ∧ urec.sample_size = (numsOf vcells).length ∧
      (numsOf vcells).length ≠ 0 := by
  have hfm : (vcells.map cellNumOpt).filterMap id = numsOf vcells := by
    rw [List.filterMap_map]
    rfl
  have hlenw : (cleanWeights (wcells.map cellNumOpt)).length
      = (vcells.map cellNumOpt).length := by
    simp [cleanWeights, hlen]
  have hvp := validPairs_map_some_length (vcells.map cellNumOpt)
    (cleanWeights (wcells.map cellNumOpt)) hlenw
  have hn : (validPairs (vcells.map cellNumOpt)
      ((cleanWeights (wcells.map cellNumOpt)).map some)).length ≠ 0 := by
    rw [hvp, hfm]
    omega
  obtain ⟨wrec, hwrec, hnan, hsz⟩ := calcWeighted_unsupported sqrtF tppf
    (vcells.map cellNumOpt) ((cleanWeights (wcells.map cellNumOpt)).map some) s cl
    hs1 hs2 hs3 hn
  have hu := calcUnweighted_unsupported sqrtF tppf (vcells.map cellNumOpt) s cl
    hs1 hs2 hs3 (by rw [hfm]; omega)
  refine ⟨wrec, calcUnweightedEstimate sqrtF tppf (vcells.map cellNumOpt) s cl,
    weightStatistics sqrtF (cleanWeights (wcells.map cellNumOpt)), ?_, hnan, ?_, hu.1, ?_, by omega⟩
  · simp only [apply_weights, hw, estFold, hv, hwrec, insertRec, List.any_nil,
      Bool.false_eq_true, if_false, List.nil_append]
  · rw [hsz, hvp, hfm]
  · rw [hu.2, hfm]

def c10recW : Estimate := ⟨none, none, none, none, none, none, 2, some 2⟩
def c10recU : Estimate := ⟨none, none, none, none, none, none, 2, none⟩

def c10res : WResults :=
  ⟨some [("v_median", c10recW)], [("v_median", c10recU)],
   some ⟨3, some 1, some 1, some 1, some 1, some 0, 3, 3⟩⟩

unseal Rat.mul Rat.add Rat.sub Rat.inv in
/-- C10 witness: the statistic "median" on `{w: [1,1,1], v: [2,4,NaN]}` gives
weighted and unweighted records with NaN estimates but sample size 2. -/
theorem weights_unsupported_c10_witness :
    c10recW.estimate = none ∧ c10recW.sample_size = 2 ∧
    c10recU.estimate = none ∧ c10recU.sample_size = 2 := by
  obtain ⟨wrec, urec, wst, happ, hnanW, hszW, hnanU, hszU, hne⟩ :=
    weights_unsupported_c10 (fun q => q) (fun _ _ => 2) c2wdf "w" "v" "median" (95/100)
      [Cell.numC 1, Cell.numC 1, Cell.numC 1] [Cell.numC 2, Cell.numC 4, Cell.missingC]
      rfl (by decide) rfl (by decide) (by decide) (by decide) (by decide) (by decide) (by decide)
  have h2 : apply_weights (fun q => q) (fun _ _ => 2) c2wdf
      ⟨some "w", [⟨"v", "median", 95/100⟩]⟩ = .ok c10res := by decide
  rw [happ] at h2
  have h3 := Except.ok.inj h2
  have hW : wrec = c10recW := by
    have h4 := congrArg WResults.weighted h3
    simp only [c10res, Option.some.injEq, List.cons.injEq, Prod.mk.injEq, and_true] at h4
    exact h4.2
  have hU : urec = c10recU := by
    have h4 := congrArg WResults.unweighted h3
    simp only [c10res, List.cons.injEq, Prod.mk.injEq, and_true] at h4
    exact h4.2
  rw [hW] at hnanW hszW
  rw [hU] at hnanU hszU
  refine ⟨hnanW.1, ?_, hnanU.1, ?_⟩
  · rw [hszW]; decide
  · rw [hszU]; decide
